import Mathlib

/-!
Verification of the harmony media server's ingestion and delivery pipeline.

The Go sources are shallowly embedded: pure string manipulation is translated
function-by-function, filesystem state is passed explicitly as lists of
entries, and the concurrent scan coordinator is embedded as a sequential fold
in which each file's commit and counter update is one atomic step (matching
the per-item atomic counters of `processFiles`).  Cooperative cancellation is
embedded by numbering the `ctx.Done()` checkpoints the code performs (one per
walked file during discovery, one per dispatched file during processing, one
per known file during deletion cleanup) and cancelling from a given
checkpoint onward.
-/

set_option maxRecDepth 40000

namespace Harmony

/-! ## Go character classes and string helpers -/

/-- Decimal value of a list of ASCII digits (used for `strconv.Atoi` on
strings already known to be all digits). -/
def natOfDigits (l : List Char) : Nat :=
  l.foldl (fun a c => 10 * a + (c.toNat - 48)) 0

/-- Character class `\s` of Go's RE2 regexp: `[\t\n\f\r ]`. -/
def isGoRegexSpace (c : Char) : Bool :=
  c = ' ' ∨ c = '\t' ∨ c = '\n' ∨ c = Char.ofNat 12 ∨ c = '\r'

/-- Whitespace trimmed by Go's `strings.TrimSpace` (ASCII part of
`unicode.IsSpace`). -/
def isTrimSpaceChar (c : Char) : Bool :=
  c = ' ' ∨ c = '\t' ∨ c = '\n' ∨ c = Char.ofNat 11 ∨ c = Char.ofNat 12 ∨ c = '\r'

/-- Go `strings.TrimSpace` on the character list. -/
def trimSpaceList (l : List Char) : List Char :=
  ((l.dropWhile isTrimSpaceChar).reverse.dropWhile isTrimSpaceChar).reverse

/-- Go `strings.TrimSpace`. -/
def trimSpace (s : String) : String :=
  String.mk (trimSpaceList s.data)

/-- Go `strings.ToLower` (ASCII range, which is all the scanner compares). -/
def toLowerStr (s : String) : String :=
  String.mk (s.data.map Char.toLower)

/-- Go `strings.TrimSuffix`. -/
def trimSuffixGo (s suf : String) : String :=
  let n := s.data.length
  let m := suf.data.length
  if m ≤ n ∧ s.data.drop (n - m) = suf.data then String.mk (s.data.take (n - m)) else s

/-! ## `path/filepath` helpers (slash-separated paths)

`basePath`, `dirPath` and `extGo` model Go's `filepath.Base`, `filepath.Dir`
and `filepath.Ext` for slash-separated paths (`filepath.Dir`'s trailing
`Clean` is reflected for already-clean paths, which is what the scanner ever
passes: paths produced by `filepath.WalkDir`). -/

/-- Go `filepath.Base`. -/
def basePath (s : String) : String :=
  if s = "" then "." else
  let r := s.data.reverse.dropWhile (fun c => c = '/')
  if r = [] then "/" else String.mk (r.takeWhile (fun c => c ≠ '/')).reverse

/-- Go `filepath.Dir`. -/
def dirPath (s : String) : String :=
  let pre := s.data.reverse.dropWhile (fun c => c ≠ '/')
  if pre = [] then "." else
  let pre2 := pre.dropWhile (fun c => c = '/')
  if pre2 = [] then "/" else String.mk pre2.reverse

/-- Go `filepath.Ext`: the suffix from the final dot of the final element. -/
def extGo (s : String) : String :=
  let seg := s.data.reverse.takeWhile (fun c => c ≠ '/')
  let upto := seg.takeWhile (fun c => c ≠ '.')
  if upto.length = seg.length then "" else String.mk ('.' :: upto.reverse)

/-! ## scanner package: supported formats -/

/-- `scanner.SupportedFormats` (keys of the Go map). -/
def SupportedFormats : List String :=
  [".mp3", ".flac", ".wav", ".ogg", ".m4a", ".aac", ".opus", ".wma"]

/-- The extension filter of `Scanner.DiscoverFiles`:
`SupportedFormats[strings.ToLower(filepath.Ext(path))]`. -/
def isSupportedExt (path : String) : Bool :=
  SupportedFormats.contains (toLowerStr (extGo path))

/-- `scanner.GetFormatFromPath`. -/
def GetFormatFromPath (path : String) : String :=
  let e := toLowerStr (extGo path)
  if e.data.length > 0 then String.mk (e.data.drop 1) else ""

/-! ## MetadataExtractor

The regular expressions of `metadata.go` are embedded by their RE2
(leftmost-first, greedy/lazy with backtracking) matching semantics;
`.` does not match a newline, `$` is end of text. -/

/-- The separator class `[\s\.\-_]` of the track-number patterns. -/
def isSepCls (c : Char) : Bool :=
  isGoRegexSpace c ∨ c = '.' ∨ c = '-' ∨ c = '_'

/-- Word characters for RE2's `\b` (ASCII `[0-9A-Za-z_]`). -/
def isWordChar (c : Char) : Bool :=
  c.isAlphanum ∨ c = '_'

/-- Match of `^(\d{1,3})[\s\.\-_]+(.+)$` (pattern "01 - Song Title"):
returns the track number and the characters of capture group 2. -/
def trackPatternMatch (l : List Char) : Option (Nat × List Char) :=
  let p := l.takeWhile Char.isDigit
  let s := l.dropWhile Char.isDigit
  if 1 ≤ p.length ∧ p.length ≤ 3 then
    let m := s.takeWhile isSepCls
    let t := s.dropWhile isSepCls
    if m = [] then none
    else if t ≠ [] then
      if t.all (fun c => c ≠ '\n') then some (natOfDigits p, t) else none
    else if 2 ≤ m.length ∧ m.getLast? ≠ some '\n' then
      some (natOfDigits p, m.drop (m.length - 1))
    else none
  else none

/-- Match of the tail `\s*-\s*(.+)$` of the artist pattern against `r`:
returns capture group 2 when the remainder matches. -/
def artistTailMatch (r : List Char) : Option (List Char) :=
  match r.dropWhile isGoRegexSpace with
  | '-' :: r2 =>
    let sp := r2.takeWhile isGoRegexSpace
    let g2 := r2.dropWhile isGoRegexSpace
    if g2 ≠ [] then
      if g2.all (fun c => c ≠ '\n') then some g2 else none
    else if sp ≠ [] ∧ sp.getLast? ≠ some '\n' then
      some (sp.drop (sp.length - 1))
    else none
  | _ => none

/-- Lazy search for the shortest nonempty capture group 1 of
`^(.+?)\s*-\s*(.+)$` (pattern "Artist - Song Title"). -/
def artistLoop : List Char → List Char → Option (List Char × List Char)
  | _, [] => none
  | g1rev, c :: rest =>
    if c = '\n' then none
    else
      match artistTailMatch rest with
      | some g2 => some ((c :: g1rev).reverse, g2)
      | none => artistLoop (c :: g1rev) rest

/-- Match of `^(.+?)\s*-\s*(.+)$`. -/
def artistPatternMatch (l : List Char) : Option (List Char × List Char) :=
  artistLoop [] l

/-- `scanner.cleanTitle`: strip a leading `^(\d{1,3})[\s\.\-_]+` then trim. -/
def cleanTitle (title : String) : String :=
  let l := title.data
  let p := l.takeWhile Char.isDigit
  let s := l.dropWhile Char.isDigit
  let stripped :=
    if 1 ≤ p.length ∧ p.length ≤ 3 ∧ (s.takeWhile isSepCls) ≠ [] then
      s.dropWhile isSepCls
    else l
  trimSpace (String.mk stripped)

/-- Global replacement of `[\[\(]\d{4}[\]\)]` by the empty string
(leftmost, non-overlapping), used by `scanner.cleanAlbumName`. -/
def removeYearBrackets : List Char → List Char
  | [] => []
  | c :: d1 :: d2 :: d3 :: d4 :: e :: rest2 =>
    if (c = '[' ∨ c = '(') ∧
        d1.isDigit ∧ d2.isDigit ∧ d3.isDigit ∧ d4.isDigit ∧ (e = ']' ∨ e = ')') then
      removeYearBrackets rest2
    else c :: removeYearBrackets (d1 :: d2 :: d3 :: d4 :: e :: rest2)
  | c :: rest => c :: removeYearBrackets rest

/-- The suffixes stripped by `scanner.cleanAlbumName`, in source order. -/
def albumSuffixes : List String :=
  [" - Album", " (Album)", " [Album]", " - EP", " (EP)", " [EP]"]

/-- `scanner.cleanAlbumName`. -/
def cleanAlbumName (name : String) : String :=
  let n1 := String.mk (removeYearBrackets name.data)
  let n2 := albumSuffixes.foldl (fun acc suf => trimSuffixGo acc suf) n1
  trimSpace n2

/-- `\b` of RE2 holds at a position whose neighbouring character on the given
side is absent or not a word character. -/
def boundaryOk (c? : Option Char) : Bool :=
  match c? with
  | some c => ¬ isWordChar c
  | none => true

/-- Leftmost match of `\b(19\d{2}|20\d{2})\b`; 0 when there is none
(`scanner.extractYearFromString`). -/
def findYearAux : Option Char → List Char → Nat
  | prev, c1 :: c2 :: c3 :: c4 :: rest =>
    if boundaryOk prev ∧
       ((c1 = '1' ∧ c2 = '9') ∨ (c1 = '2' ∧ c2 = '0')) ∧
       c3.isDigit ∧ c4.isDigit ∧ boundaryOk rest.head? then
      natOfDigits [c1, c2, c3, c4]
    else findYearAux (some c1) (c2 :: c3 :: c4 :: rest)
  | _, _ => 0

/-- `scanner.extractYearFromString`. -/
def extractYearFromString (s : String) : Nat :=
  findYearAux none s.data

/-- `scanner.isGenericName`. -/
def isGenericName (name : String) : Bool :=
  ["music", "media", "audio", "downloads", "library", "songs",
   "tracks", "albums", "", ".", ".."].contains (toLowerStr name)

/-- `scanner.TrackMetadata` (fields the tag library never populates, such as
duration, stay at their zero value exactly as in `Extract`). -/
structure TrackMetadata where
  title : String := ""
  artist : String := ""
  album : String := ""
  albumArtist : String := ""
  year : Nat := 0
  trackNumber : Nat := 0
  discNumber : Nat := 0
  genre : String := ""
  duration : Nat := 0
  bitrate : Nat := 0
  sampleRate : Nat := 0
  channels : Nat := 0
  format : String := ""
  hasArtwork : Bool := false
deriving Repr, DecidableEq

/-- `MetadataExtractor.applyFallbacks`. -/
def applyFallbacks (meta0 : TrackMetadata) (path : String) : TrackMetadata :=
  let dir := dirPath path
  let dirName := basePath dir
  let parentDir := dirPath dir
  let parentDirName := basePath parentDir
  let meta1 :=
    if meta0.title = "" then
      let filename := basePath path
      { meta0 with title := cleanTitle (trimSuffixGo filename (extGo filename)) }
    else meta0
  let meta2 :=
    if meta1.album = "" then { meta1 with album := cleanAlbumName dirName } else meta1
  let meta3 :=
    if meta2.artist = "" then
      { meta2 with artist := if isGenericName parentDirName then "Unknown Artist" else parentDirName }
    else meta2
  let meta4 :=
    if meta3.albumArtist = "" then { meta3 with albumArtist := meta3.artist } else meta3
  let meta5 :=
    if meta4.year = 0 then { meta4 with year := extractYearFromString meta4.album } else meta4
  if meta5.year = 0 then { meta5 with year := extractYearFromString dirName } else meta5

/-- `MetadataExtractor.extractFromFilename`. -/
def extractFromFilename (path : String) : TrackMetadata :=
  let base : TrackMetadata := { format := GetFormatFromPath path, discNumber := 1 }
  let filename0 := basePath path
  let filename := trimSuffixGo filename0 (extGo filename0)
  let meta :=
    match trackPatternMatch filename.data with
    | some (n, g2) => { base with trackNumber := n, title := trimSpace (String.mk g2) }
    | none =>
      match artistPatternMatch filename.data with
      | some (g1, g2) =>
        { base with artist := trimSpace (String.mk g1), title := trimSpace (String.mk g2) }
      | none => { base with title := filename }
  applyFallbacks meta path

/-- Embedded tag data as surfaced by the `dhowden/tag` library. -/
structure Tags where
  title : String := ""
  artist : String := ""
  album : String := ""
  albumArtist : String := ""
  genre : String := ""
  year : Nat := 0
  trackNumber : Nat := 0
  discNumber : Nat := 0
  hasPicture : Bool := false
deriving Repr, DecidableEq

/-- Abstract content of an on-disk file: either `tag.ReadFrom` fails on it,
or it carries readable tags. -/
inductive FileContent
  | unreadableTags
  | tagged (t : Tags)
deriving Repr, DecidableEq

/-- A file of the abstract filesystem (one walkable file of the media root). -/
structure FsEntry where
  path : String
  size : Nat := 0
  modTime : Nat := 0
  content : FileContent := .unreadableTags
deriving Repr, DecidableEq

/-- `os.Open`/lookup of a path in the abstract filesystem. -/
def findFile (fs : List FsEntry) (path : String) : Option FsEntry :=
  fs.find? (fun f => f.path = path)

/-- The tag-derived branch of `MetadataExtractor.Extract`. -/
def extractFromTags (t : Tags) (path : String) : TrackMetadata :=
  let m : TrackMetadata :=
    { title := t.title
      artist := t.artist
      album := t.album
      albumArtist := t.albumArtist
      year := t.year
      genre := t.genre
      format := GetFormatFromPath path
      trackNumber := t.trackNumber
      discNumber := if t.discNumber = 0 then 1 else t.discNumber
      hasArtwork := t.hasPicture }
  applyFallbacks m path

/-- Metadata produced for an openable file. -/
def extractContent (c : FileContent) (path : String) : TrackMetadata :=
  match c with
  | .unreadableTags => extractFromFilename path
  | .tagged t => extractFromTags t path

/-- `MetadataExtractor.Extract`: an `os.Open` failure is returned as an
error; a `tag.ReadFrom` failure falls back to the filename heuristics. -/
def Extract (fs : List FsEntry) (path : String) : Except String TrackMetadata :=
  match findFile fs path with
  | none => .error "opening file"
  | some f => .ok (extractContent f.content path)

/-! ## Repository collaborator (database model)

`GenerateID` in the source produces fresh random identifiers; artists are
found-or-created by name and albums by (title, artist), so names and
(title, artist) pairs stand in for the identifiers here.  `Create` appends a
row, `Update` replaces the row matched by file path (the row found by
`FindByFilePath`, whose id the update reuses). -/

structure Artist where
  name : String
deriving Repr, DecidableEq

structure Album where
  title : String
  artistName : String
  year : Nat
deriving Repr, DecidableEq

structure Track where
  path : String
  title : String
  albumTitle : String
  artistName : String
  trackNumber : Nat
  discNumber : Nat
  year : Nat
  genre : String
  format : String
  size : Nat
deriving Repr, DecidableEq

structure DB where
  artists : List Artist := []
  albums : List Album := []
  tracks : List Track := []
deriving Repr, DecidableEq

/-- `ArtistRepository.FindOrCreate`. -/
def findOrCreateArtist (db : DB) (name : String) : DB :=
  if db.artists.any (fun a => a.name = name) then db
  else { db with artists := db.artists ++ [⟨name⟩] }

/-- `LibraryService.findOrCreateAlbum` (the artwork side effect of a new
album is fire-and-forget and touches no scan state). -/
def findOrCreateAlbum (db : DB) (title : String) (artistName : String) (year : Nat) : DB :=
  if db.albums.any (fun a => a.title = title ∧ a.artistName = artistName) then db
  else { db with albums := db.albums ++ [⟨title, artistName, year⟩] }

/-- Number of track rows stored under a file path. -/
def countPath (db : DB) (p : String) : Nat :=
  db.tracks.countP (fun t => t.path = p)

/-! ## Scanner: discovery -/

/-- `scanner.FileInfo`. -/
structure FileInfo where
  path : String
  size : Nat
  modTime : Nat
  format : String
  isNew : Bool := false
  isModified : Bool := false
deriving Repr, DecidableEq

/-- Lookup in the `knownFiles` map (path to remembered modification time). -/
def lookupKnown (known : List (String × Nat)) (p : String) : Option Nat :=
  (known.find? (fun kv => kv.1 = p)).map (fun kv => kv.2)

/-- The per-file body of `Scanner.DiscoverFiles`: build the `FileInfo` and
classify it as new (path unknown) or modified (mod time strictly newer). -/
def classifyEntry (known : List (String × Nat)) (f : FsEntry) : FileInfo :=
  match lookupKnown known f.path with
  | none =>
    { path := f.path, size := f.size, modTime := f.modTime
      format := GetFormatFromPath f.path, isNew := true }
  | some t =>
    { path := f.path, size := f.size, modTime := f.modTime
      format := GetFormatFromPath f.path, isModified := f.modTime > t }

/-- `Scanner.DiscoverFiles` (without cancellation): walk the files of the
media root and keep those with a supported extension.  The walk's pruning of
hidden directories is reflected in the `fs` list holding exactly the files the
walk visits. -/
def discoverFiles (known : List (String × Nat)) (fs : List FsEntry) : List FileInfo :=
  (fs.filter (fun f => isSupportedExt f.path)).map (classifyEntry known)

/-- `Scanner.FindDeletedFiles` (without cancellation): known paths absent
from disk. -/
def findDeletedFiles (fs : List FsEntry) (known : List (String × Nat)) : List String :=
  (known.filter (fun kv => (findFile fs kv.1).isNone)).map (fun kv => kv.1)

/-! ## LibraryService: scan coordinator -/

inductive ScanStatus
  | idle
  | scanning
  | processing
  | completed
  | failed
  | cancelled
deriving Repr, DecidableEq

/-- `services.ScanProgress` (timestamps are not modelled). -/
structure ScanProgress where
  status : ScanStatus := .idle
  totalFiles : Nat := 0
  processedFiles : Nat := 0
  newTracks : Nat := 0
  updatedTracks : Nat := 0
  deletedTracks : Nat := 0
  errorCount : Nat := 0
  currentFile : String := ""
deriving Repr, DecidableEq

/-- How `processFiles` classifies one dispatched file. -/
inductive FileOutcome
  | newTrack
  | updatedTrack
  | failed
deriving Repr, DecidableEq

/-- The atomic counters of `processFiles`. -/
structure Counters where
  processed : Nat := 0
  newC : Nat := 0
  updatedC : Nat := 0
  errC : Nat := 0
deriving Repr, DecidableEq

/-- One worker iteration's counter updates: the outcome bucket and the
processed count. -/
def stepCounters (c : Counters) (o : FileOutcome) : Counters :=
  match o with
  | .newTrack => { c with newC := c.newC + 1, processed := c.processed + 1 }
  | .updatedTrack => { c with updatedC := c.updatedC + 1, processed := c.processed + 1 }
  | .failed => { c with errC := c.errC + 1, processed := c.processed + 1 }

/-- The periodic-publish condition `processed%10 == 0 || processed == len(files)`. -/
def shouldPublish (processed total : Nat) : Bool :=
  processed % 10 = 0 ∨ processed = total

/-- Copy the counters into the shared progress struct (the body of the
periodic update under the mutex). -/
def publishProgress (pr : ScanProgress) (c : Counters) (current : String) : ScanProgress :=
  { pr with
      processedFiles := c.processed
      newTracks := c.newC
      updatedTracks := c.updatedC
      errorCount := c.errC
      currentFile := current }

/-- `mkTrack` builds the `models.Track` written by `processFile`. -/
def mkTrack (m : TrackMetadata) (fi : FileInfo) : Track :=
  { path := fi.path
    title := m.title
    albumTitle := m.album
    artistName := m.artist
    trackNumber := m.trackNumber
    discNumber := m.discNumber
    year := m.year
    genre := m.genre
    format := m.format
    size := fi.size }

/-- The upsert at the end of `processFile`: `FindByFilePath` decides between
`Create` (append) and `Update` (replace the row with that path). -/
def upsertTrack (db : DB) (tr : Track) : DB × FileOutcome :=
  match db.tracks.find? (fun t => t.path = tr.path) with
  | none => ({ db with tracks := db.tracks ++ [tr] }, .newTrack)
  | some _ =>
    ({ db with tracks := db.tracks.map (fun t => if t.path = tr.path then tr else t) },
     .updatedTrack)

/-- `LibraryService.processFile`: extract metadata, find-or-create artist
and album, then upsert the track by its file path. -/
def processFile (fs : List FsEntry) (db : DB) (fi : FileInfo) : DB × FileOutcome :=
  match Extract fs fi.path with
  | .error _ => (db, .failed)
  | .ok m =>
    upsertTrack (findOrCreateAlbum (findOrCreateArtist db m.artist) m.album m.artist m.year)
      (mkTrack m fi)

/-- Result of the worker-pool phase. -/
structure ProcResult where
  db : DB
  counters : Counters
  progress : ScanProgress
  published : List ScanProgress
  cancelled : Bool
deriving Repr, DecidableEq

/-- Decrement the remaining cancellation budget after passing a checkpoint. -/
def decCancel (cl : Option Nat) : Option Nat :=
  cl.map (fun n => n - 1)

/-- The dispatch/worker loop of `processFiles`, serialised at per-file
granularity: before each dispatch the cancellation signal is checked
(`cl = some 0` means the context is cancelled at this checkpoint); a
dispatched file is processed, counted in exactly one bucket, and the progress
is published periodically. -/
def processFilesLoop (run : DB → FileInfo → DB × FileOutcome) (total : Nat) :
    Option Nat → DB → Counters → ScanProgress → List ScanProgress → List FileInfo → ProcResult
  | _, db, c, pr, pub, [] => ⟨db, c, pr, pub, false⟩
  | cl, db, c, pr, pub, fi :: rest =>
    if cl = some 0 then ⟨db, c, pr, pub, true⟩
    else
      processFilesLoop run total (decCancel cl) (run db fi).1
        (stepCounters c (run db fi).2)
        (if shouldPublish (stepCounters c (run db fi).2).processed total then
          publishProgress pr (stepCounters c (run db fi).2) fi.path
        else pr)
        (if shouldPublish (stepCounters c (run db fi).2).processed total then
          pub ++ [publishProgress pr (stepCounters c (run db fi).2) fi.path]
        else pub)
        rest

/-- `cleanupDeletedFiles` (full scans only): delete the track row of every
known path missing on disk, then drop albums and artists left without
tracks. -/
def cleanupDeletedFiles (fs : List FsEntry) (db : DB) (known : List (String × Nat)) :
    DB × Nat :=
  let del := findDeletedFiles fs known
  let db1 := { db with tracks := db.tracks.filter (fun t => ¬ del.contains t.path) }
  if 0 < del.length then
    let db2 := { db1 with
      albums := db1.albums.filter (fun a =>
        db1.tracks.any (fun t => t.albumTitle = a.title ∧ t.artistName = a.artistName)) }
    let db3 := { db2 with
      artists := db2.artists.filter (fun ar =>
        db2.tracks.any (fun t => t.artistName = ar.name)) }
    (db3, del.length)
  else (db1, 0)

/-- The candidate list handed to `processFiles`: all supported files on a
full scan, only new/modified ones on an incremental scan (whose
`loadKnownFiles` stores a zero mod time for every known path). -/
def scanCandidates (fs : List FsEntry) (db : DB) (known0 : List (String × Nat))
    (inc : Bool) : List FileInfo :=
  let known := if inc then db.tracks.map (fun t => (t.path, 0)) else known0
  let all := discoverFiles known fs
  if inc then all.filter (fun f => f.isNew ∨ f.isModified) else all

/-- What a whole scan leaves behind: the database, the final progress
struct, every published progress snapshot (in order), the scanner's
`knownFiles` map, and whether `scan` returned without error. -/
structure ScanOutcome where
  db : DB
  progress : ScanProgress
  published : List ScanProgress
  known : List (String × Nat)
  ok : Bool
deriving Repr, DecidableEq

/-- `LibraryService.scan`, with cancellation modelled by the global
checkpoint index `cancelAfter`: the context is cancelled from the
`cancelAfter`-th cooperative check onward (checks happen once per walked
file during discovery, once per dispatched file, once per known file during
deletion lookup).  A cancellation observed during discovery makes
`DiscoverFiles` return `ctx.Err()`, which `scan` maps to status `failed`;
one observed at a dispatch boundary makes `processFiles` return
`context.Canceled`, which `scan` maps to `cancelled` without running the
cleanup phase; one observed during `FindDeletedFiles` aborts only the
cleanup (logged as a warning) and the scan still completes. -/
def scanRun (fs : List FsEntry) (db : DB) (known0 : List (String × Nat))
    (inc : Bool) (cancelAfter : Option Nat) : ScanOutcome :=
  let known := if inc then db.tracks.map (fun t => (t.path, 0)) else known0
  let pr0 : ScanProgress := { status := .scanning }
  let discoveryCancelled :=
    match cancelAfter with
    | some n => decide (n < fs.length)
    | none => false
  if discoveryCancelled then
    { db := db, progress := { pr0 with status := .failed }, published := [pr0]
      known := known, ok := false }
  else
    let files := scanCandidates fs db known0 inc
    let cl := cancelAfter.map (fun n => n - fs.length)
    let pr1 : ScanProgress := { pr0 with status := .processing, totalFiles := files.length }
    let r := processFilesLoop (processFile fs) files.length cl db {} pr1 [pr0, pr1] files
    if r.cancelled then
      { db := r.db, progress := { r.progress with status := .cancelled }
        published := r.published, known := known, ok := false }
    else
      let cleanupCancelled :=
        match cancelAfter with
        | some n => decide (n - fs.length - files.length < known.length)
        | none => false
      if inc ∨ cleanupCancelled then
        let prF := { r.progress with status := .completed }
        { db := r.db, progress := prF, published := r.published ++ [prF]
          known := known, ok := true }
      else
        let cleaned := cleanupDeletedFiles fs r.db known
        let prF := { r.progress with deletedTracks := cleaned.2, status := .completed }
        { db := cleaned.1, progress := prF, published := r.published ++ [prF]
          known := known, ok := true }

/-- The worker-pool phase of an uncancelled scan, exactly as `scanRun`
invokes it (initial counters zero; the started and processing snapshots
already published). -/
def scanLoopResult (fs : List FsEntry) (db : DB) (known0 : List (String × Nat))
    (inc : Bool) : ProcResult :=
  processFilesLoop (processFile fs) (scanCandidates fs db known0 inc).length none db {}
    { status := .processing, totalFiles := (scanCandidates fs db known0 inc).length }
    [{ status := .scanning },
     { status := .processing, totalFiles := (scanCandidates fs db known0 inc).length }]
    (scanCandidates fs db known0 inc)

/-- The effects a scan cancelled before its `k`-th dispatch has committed:
those of the uncancelled loop over the first `k` candidates. -/
def scanCancelLoopResult (fs : List FsEntry) (db : DB) (known0 : List (String × Nat))
    (inc : Bool) (k : Nat) : ProcResult :=
  processFilesLoop (processFile fs) (scanCandidates fs db known0 inc).length none db {}
    { status := .processing, totalFiles := (scanCandidates fs db known0 inc).length }
    [{ status := .scanning },
     { status := .processing, totalFiles := (scanCandidates fs db known0 inc).length }]
    ((scanCandidates fs db known0 inc).take k)

/-! ## LibraryService: the scan-in-progress guard

The `scanning` boolean and the status field live under one mutex; the steps
below are exactly the mutations `scan` performs on that pair over its
lifetime (acquire, move to processing, set a terminal status, release in the
deferred block). -/

structure SvcState where
  scanning : Bool
  status : ScanStatus
deriving Repr, DecidableEq

/-- A status `scan` can end with before its deferred release runs. -/
def isTerminalStatus (st : ScanStatus) : Prop :=
  st = .completed ∨ st = .failed ∨ st = .cancelled

/-- The mutations `LibraryService.scan` performs on the guarded pair. -/
inductive SvcStep : SvcState → SvcState → Prop
  | beginScan (s : SvcState) : s.scanning = false →
      SvcStep s ⟨true, .scanning⟩
  | toProcessing (s : SvcState) : s.scanning = true → s.status = .scanning →
      SvcStep s { s with status := .processing }
  | finishScan (s : SvcState) (t : ScanStatus) : s.scanning = true → isTerminalStatus t →
      SvcStep s { s with status := t }
  | releaseScan (s : SvcState) : s.scanning = true → isTerminalStatus s.status →
      SvcStep s { s with scanning := false }

/-- States reachable from the freshly constructed service
(`progress = {Status: idle}`, not scanning). -/
inductive SvcReachable : SvcState → Prop
  | init : SvcReachable ⟨false, .idle⟩
  | step {s s' : SvcState} : SvcReachable s → SvcStep s s' → SvcReachable s'

/-- The guard at the top of `LibraryService.scan`: under the mutex, a second
request fails fast with `ErrScanInProgress` and mutates nothing. -/
def startScanRequest (s : SvcState) : SvcState × Option String :=
  if s.scanning then (s, some "scan already in progress")
  else (⟨true, .scanning⟩, none)

/-! ## Transcoder -/

/-- `transcoder.Profile`. -/
structure Profile where
  name : String
  format : String
  codec : String
  bitrate : Nat
  ext : String
deriving Repr, DecidableEq

def ProfileOriginal : Profile := ⟨"original", "", "", 0, ""⟩
def ProfileHigh : Profile := ⟨"high", "mp3", "libmp3lame", 320, "mp3"⟩
def ProfileMedium : Profile := ⟨"medium", "mp3", "libmp3lame", 192, "mp3"⟩
def ProfileLow : Profile := ⟨"low", "mp3", "libmp3lame", 128, "mp3"⟩
def ProfileHighOGG : Profile := ⟨"high-ogg", "ogg", "libvorbis", 320, "ogg"⟩
def ProfileMediumOGG : Profile := ⟨"medium-ogg", "ogg", "libvorbis", 192, "ogg"⟩
def ProfileLowOGG : Profile := ⟨"low-ogg", "ogg", "libvorbis", 128, "ogg"⟩

/-- The `profiles` map. -/
def profilesTable : List (String × Profile) :=
  [("original", ProfileOriginal), ("high", ProfileHigh), ("medium", ProfileMedium),
   ("low", ProfileLow), ("high-ogg", ProfileHighOGG), ("medium-ogg", ProfileMediumOGG),
   ("low-ogg", ProfileLowOGG)]

/-- `transcoder.GetProfile`. -/
def GetProfile (name : String) : Except String Profile :=
  match profilesTable.find? (fun kv => kv.1 = toLowerStr name) with
  | some kv => .ok kv.2
  | none => .error "invalid transcoding profile"

/-- The cache-key preimage built by `Transcoder.getCacheKey`:
`"path|profileName|modTimeRFC3339"`.  Modification times are nanoseconds;
`time.RFC3339` renders whole seconds only, modelled by the abstract
date formatter `fmtDate` applied to `t / 1e9` (`fmtDate` stands for the
rendering of a second count as an RFC3339 string, an injective function).
When `os.Stat` fails the mod-time part is the empty string. -/
def getCacheKeyData (fmtDate : Nat → String) (input pname : String)
    (mt : Option Nat) : String :=
  input ++ "|" ++ pname ++ "|" ++
    (match mt with
     | none => ""
     | some t => fmtDate (t / 1000000000))

/-- `Transcoder.getCacheKey`, with the SHA-256/hex digest abstracted as
`digest`. -/
def getCacheKey (digest : String → String) (fmtDate : Nat → String)
    (input pname : String) (mt : Option Nat) : String :=
  digest (getCacheKeyData fmtDate input pname mt)

/-- The transcode-cache directory state (paths of the files it holds). -/
structure TState where
  cacheDir : String := "/cache"
  cacheFiles : List String := []
deriving Repr, DecidableEq

/-- The cached output path `cacheDir/<key>.<ext>` for a source and profile
(`stat` maps a path to its modification time when the file exists). -/
def cachedPathFor (digest : String → String) (fmtDate : Nat → String)
    (st : TState) (stat : String → Option Nat) (input : String) (p : Profile) : String :=
  st.cacheDir ++ "/" ++ getCacheKey digest fmtDate input p.name (stat input) ++ "." ++ p.ext

/-- `Transcoder.GetCachedPath`: the pass-through profile returns the source
path; otherwise the cached path when that file exists, else `""`. -/
def GetCachedPath (digest : String → String) (fmtDate : Nat → String)
    (st : TState) (stat : String → Option Nat) (input : String) (p : Profile) : String :=
  if p.name = "original" then input
  else if st.cacheFiles.contains (cachedPathFor digest fmtDate st stat input p) then
    cachedPathFor digest fmtDate st stat input p
  else ""

/-- Result of `Transcoder.TranscodeAndCache`: the returned path, the cache
state afterwards, and how many times the external engine ran. -/
structure TResult where
  path : String
  state : TState
  engineRuns : Nat
deriving Repr, DecidableEq

/-- `Transcoder.TranscodeAndCache` (successful-engine run modelled; the
temp-file rename makes the new cache file appear atomically). -/
def TranscodeAndCache (digest : String → String) (fmtDate : Nat → String)
    (st : TState) (stat : String → Option Nat) (input : String) (p : Profile) : TResult :=
  if st.cacheFiles.contains (cachedPathFor digest fmtDate st stat input p) then
    ⟨cachedPathFor digest fmtDate st stat input p, st, 0⟩
  else
    ⟨cachedPathFor digest fmtDate st stat input p,
     { st with cacheFiles := cachedPathFor digest fmtDate st stat input p :: st.cacheFiles }, 1⟩

/-! ## Transcode cache eviction -/

/-- One file of the cache directory as seen by `cleanupCache`'s walk. -/
structure CFile where
  path : String
  size : Nat
  modTime : Nat
deriving Repr, DecidableEq

/-- Insert keeping ascending modification time. -/
def insertByTime (f : CFile) : List CFile → List CFile
  | [] => [f]
  | g :: rest => if f.modTime ≤ g.modTime then f :: g :: rest else g :: insertByTime f rest

/-- The "sort by modification time (oldest first)" step of `cleanupCache`
(the source's exchange sort, observably a mod-time-ascending reordering). -/
def sortByModTime : List CFile → List CFile
  | [] => []
  | f :: rest => insertByTime f (sortByModTime rest)

/-- The removal loop of `cleanupCache`: walk the (sorted) files, stop as
soon as the tracked size is at or below the target, otherwise remove the
file and subtract its size.  Returns the removed files in removal order and
the final tracked size. -/
def evictLoop (target : Int) : Int → List CFile → List CFile × Int
  | cur, [] => ([], cur)
  | cur, f :: rest =>
    if cur ≤ target then ([], cur)
    else
      let r := evictLoop target (cur - (f.size : Int)) rest
      (f :: r.1, r.2)

/-- `Transcoder.cleanupCache` over the cache directory listing `files` and
the tracked size `tracked`. -/
def cleanupCache (targetSize : Int) (tracked : Int) (files : List CFile) :
    List CFile × Int :=
  evictLoop targetSize tracked (sortByModTime files)

/-- `Transcoder.updateCacheSize` after adding a file of size `added`:
the new tracked size, and whether cleanup (to `maxBytes*80/100`) is
triggered. -/
def updateCacheSize (maxBytes : Nat) (cacheSize : Int) (added : Nat) : Int × Bool :=
  let newSize := cacheSize + (added : Int)
  (newSize, newSize > (maxBytes : Int))

/-- The cleanup target used by `updateCacheSize`: 80% of the ceiling. -/
def cleanupTarget (maxBytes : Nat) : Nat :=
  maxBytes * 80 / 100

/-! ## StreamDelivery -/

/-- Go `strconv.ParseInt(s, 10, 64)`. -/
def parseIntGo (s : String) : Option Int :=
  let l := s.data
  let signAndDigits : Int × List Char :=
    match l with
    | '+' :: r => (1, r)
    | '-' :: r => (-1, r)
    | r => (1, r)
  let ds := signAndDigits.2
  if ds = [] ∨ ¬ ds.all Char.isDigit then none
  else
    let v : Int := signAndDigits.1 * (natOfDigits ds : Int)
    if v < -(2 ^ 63) ∨ v > 2 ^ 63 - 1 then none else some v

/-- Go `strings.Split(s, "-")` on the character list (the separator is the
single character `-`). -/
def splitOnDash : List Char → List (List Char)
  | [] => [[]]
  | c :: rest =>
    match splitOnDash rest with
    | [] => [[]]
    | h :: t => if c = '-' then [] :: h :: t else (c :: h) :: t

/-- `handlers.parseRangeHeader`. -/
def parseRangeHeader (rangeHeader : String) (fileSize : Int) :
    Except String (Int × Int) :=
  if ¬ (rangeHeader.data.take 6 = "bytes=".data) then .error "invalid range format"
  else
    let rangeSpec := String.mk (rangeHeader.data.drop 6)
    match (splitOnDash rangeSpec.data).map String.mk with
    | [p0, p1] =>
      let parsed : Except String (Int × Int) :=
        if p0 = "" then
          match parseIntGo p1 with
          | none => .error "invalid range suffix"
          | some suf => .ok (fileSize - suf, fileSize - 1)
        else
          match parseIntGo p0 with
          | none => .error "invalid range start"
          | some start =>
            if p1 = "" then .ok (start, fileSize - 1)
            else
              match parseIntGo p1 with
              | none => .error "invalid range end"
              | some e => .ok (start, e)
      match parsed with
      | .error msg => .error msg
      | .ok se =>
        if se.1 < 0 ∨ se.1 ≥ fileSize ∨ se.2 < se.1 ∨ se.2 ≥ fileSize then
          .error "range out of bounds"
        else .ok se
    | _ => .error "invalid range format"

/-- An HTTP response as assembled by `serveRange`. -/
structure HttpResp where
  status : Nat
  contentRange : Option String := none
  contentLength : Option Int := none
  body : List Nat := []
deriving Repr, DecidableEq

/-- `StreamHandler.serveRange` on a file given as its byte list: `416` with
`Content-Range: bytes */size` on a parse/validation failure, else `206`
with the requested slice (`io.CopyN` after seeking to the start). -/
def serveRange (fileBytes : List Nat) (rangeHeader : String) : HttpResp :=
  let fileSize : Int := fileBytes.length
  match parseRangeHeader rangeHeader fileSize with
  | .error _ =>
    { status := 416, contentRange := some ("bytes */" ++ toString fileSize) }
  | .ok se =>
    let contentLength := se.2 - se.1 + 1
    { status := 206
      contentRange := some
        ("bytes " ++ toString se.1 ++ "-" ++ toString se.2 ++ "/" ++ toString fileSize)
      contentLength := some contentLength
      body := (fileBytes.drop se.1.toNat).take contentLength.toNat }

/-- Engine invocations of `StreamHandler.streamTranscoded`: none when the
quality is rejected by `GetProfile` or a cached file is served, one when the
output is streamed live (`TranscodeToWriter`). -/
def streamTranscodedEngineRuns (digest : String → String) (fmtDate : Nat → String)
    (st : TState) (stat : String → Option Nat) (filePath quality : String) : Nat :=
  match GetProfile quality with
  | .error _ => 0
  | .ok p =>
    let cp := GetCachedPath digest fmtDate st stat filePath p
    if cp ≠ "" ∧ (stat cp).isSome then 0 else 1

/-- Engine invocations of one `StreamHandler.Stream` request with resolved
quality `quality`: the transcoding path is entered only when the quality is
neither empty nor `"original"`; `streamOriginal` never runs the engine. -/
def streamEngineRuns (digest : String → String) (fmtDate : Nat → String)
    (st : TState) (stat : String → Option Nat) (filePath quality : String) : Nat :=
  if quality ≠ "" ∧ quality ≠ "original" then
    streamTranscodedEngineRuns digest fmtDate st stat filePath quality
  else 0

/-! ## The `processFiles` worker pool, interleaved

`processFiles` runs up to eight worker goroutines over `fileChan`. For each
file a worker performs, in order, three separately atomic actions on the
shared state: `atomic.AddInt64` on the bucket chosen by `processFile`'s
result, `atomic.AddInt64(&processedCount, 1)` whose return value it keeps
locally, and — when that local value is a multiple of 10 or equals the file
total — a mutex-guarded write of `s.progress` that stores the local
`processed` value next to fresh `atomic.LoadInt64`s of the three buckets.
Other workers' actions interleave freely between these three points, so the
pool is modelled as a step function over an explicit scheduler trace. The
db-dependent classification computed by `processFile` is abstracted as the
per-file `FileOutcome` each worker will observe, since the counters and the
published progress depend on nothing else of it. -/

/-- Where a worker stands inside the loop body of `processFiles` for its
current file: before the bucket `atomic.AddInt64`, before
`atomic.AddInt64(&processedCount, 1)`, or before the conditional progress
publish. -/
inductive WPhase where
  | toBucket
  | toProc
  | toPub
deriving Repr, DecidableEq

/-- A worker goroutine of `processFiles`: the files it will still take off
`fileChan` (each with the outcome `processFile` reports for it), its phase
inside the current file's loop body, and the local `processed` value its
last `atomic.AddInt64` returned. -/
structure Worker where
  jobs : List (String × FileOutcome)
  phase : WPhase
  localProc : Nat
deriving Repr, DecidableEq

/-- The shared state of `processFiles`: the four `int64` counters accessed
with `atomic.AddInt64`/`atomic.LoadInt64`, the mutex-guarded `s.progress`,
the `scan_progress` snapshots emitted so far, and the worker pool. -/
structure ConcState where
  processedCount : Nat
  newCount : Nat
  updatedCount : Nat
  errorCount : Nat
  progress : ScanProgress
  published : List ScanProgress
  workers : List Worker
deriving Repr, DecidableEq

/-- The bucket `atomic.AddInt64` selected by `processFile`'s result: an
error, a new track, or an updated track. -/
def bucketStep (s : ConcState) (o : FileOutcome) : ConcState :=
  match o with
  | .failed => { s with errorCount := s.errorCount + 1 }
  | .newTrack => { s with newCount := s.newCount + 1 }
  | .updatedTrack => { s with updatedCount := s.updatedCount + 1 }

/-- The progress record a publishing worker writes under the mutex: its own
local `processed` value next to fresh loads of the three bucket counters and
the current file path. -/
def pubSnapshot (s : ConcState) (lp : Nat) (path : String) : ScanProgress :=
  { s.progress with
    processedFiles := lp
    newTracks := s.newCount
    updatedTracks := s.updatedCount
    errorCount := s.errorCount
    currentFile := path }

/-- The conditional publish: only when the worker's local `processed` value
is a multiple of 10 or equals the file total does it overwrite `s.progress`
and emit a `scan_progress` event. -/
def publishStep (total : Nat) (s : ConcState) (lp : Nat) (path : String) :
    ConcState :=
  if lp % 10 = 0 ∨ lp = total then
    { s with
      progress := pubSnapshot s lp path
      published := s.published ++ [pubSnapshot s lp path] }
  else s

/-- One atomic action of worker `i`; an index outside the pool or a drained
worker changes nothing. -/
def concStep (total : Nat) (s : ConcState) (i : Nat) : ConcState :=
  match s.workers[i]? with
  | none => s
  | some w =>
    match w.jobs with
    | [] => s
    | job :: rest =>
      match w.phase with
      | .toBucket =>
          { bucketStep s job.2 with
            workers := s.workers.set i ⟨job :: rest, .toProc, w.localProc⟩ }
      | .toProc =>
          { s with
            processedCount := s.processedCount + 1
            workers := s.workers.set i
              ⟨job :: rest, .toPub, s.processedCount + 1⟩ }
      | .toPub =>
          { publishStep total s w.localProc job.1 with
            workers := s.workers.set i ⟨rest, .toBucket, w.localProc⟩ }

/-- A run of the worker pool under the interleaving `sched` (the sequence of
worker indices the Go scheduler lets act). -/
def concRun (total : Nat) (s : ConcState) (sched : List Nat) : ConcState :=
  sched.foldl (concStep total) s

/-- `processFiles`' state when the workers start: zeroed counters, the
progress struct `scan` just set to `processing` with the file total, and one
worker per assignment of files drained from `fileChan`. -/
def mkConcState (total : Nat)
    (assignments : List (List (String × FileOutcome))) : ConcState :=
  { processedCount := 0
    newCount := 0
    updatedCount := 0
    errorCount := 0
    progress := { status := .processing, totalFiles := total }
    published := []
    workers := assignments.map (fun jobs => ⟨jobs, .toBucket, 0⟩) }

/-- Whether a worker sits between its bucket add and its processed add: the
window in which the bucket counters run ahead of `processedCount`. -/
def midFlag (w : Worker) : Nat :=
  match w.jobs, w.phase with
  | _ :: _, .toProc => 1
  | _, _ => 0

/-- How many workers currently sit between their bucket add and their
processed add. -/
def midCount (s : ConcState) : Nat := (s.workers.map midFlag).sum

/-- The reachable-state invariant of the pool: the buckets run ahead of
`processedCount` by exactly the workers in the mid window, every local
`processed` value is at most the shared one, every published snapshot has
`processedFiles` at most the sum of its buckets, and in a pool of at most
one worker (a serialized execution) the published snapshots satisfy the
exact counter identity. -/
def concInv (s : ConcState) : Prop :=
  s.newCount + s.updatedCount + s.errorCount = s.processedCount + midCount s ∧
  (∀ w ∈ s.workers, w.localProc ≤ s.processedCount) ∧
  (∀ p ∈ s.published,
    p.processedFiles ≤ p.newTracks + p.updatedTracks + p.errorCount) ∧
  s.progress.processedFiles
    ≤ s.progress.newTracks + s.progress.updatedTracks + s.progress.errorCount ∧
  (s.workers.length ≤ 1 →
    (∀ w ∈ s.workers, w.phase = WPhase.toPub → w.localProc = s.processedCount) ∧
    (∀ p ∈ s.published,
      p.processedFiles = p.newTracks + p.updatedTracks + p.errorCount) ∧
    s.progress.processedFiles
      = s.progress.newTracks + s.progress.updatedTracks + s.progress.errorCount)

/-- Eleven files split over two workers: the first drains ten, the second
the eleventh. -/
def raceJobs : List (List (String × FileOutcome)) :=
  [[("/m/a0.mp3", .newTrack), ("/m/a1.mp3", .newTrack), ("/m/a2.mp3", .newTrack),
    ("/m/a3.mp3", .newTrack), ("/m/a4.mp3", .newTrack), ("/m/a5.mp3", .newTrack),
    ("/m/a6.mp3", .newTrack), ("/m/a7.mp3", .newTrack), ("/m/a8.mp3", .newTrack),
    ("/m/a9.mp3", .newTrack)],
   [("/m/b0.mp3", .newTrack)]]

/-- The racing interleaving: worker 0 fully processes its first nine files,
then performs the tenth file's bucket and processed adds (29 actions,
leaving its `processed = 10` publish pending), worker 1 then finishes the
eleventh file and publishes, and worker 0's delayed publish lands last. -/
def raceSched : List Nat := List.replicate 29 0 ++ [1, 1, 1, 0]

/-! ## Theorems -/

/-- C3 counterexample: a path that cannot be opened (here: absent from the
filesystem) makes `Extract` propagate an error, contradicting "no input makes
extract fail outright". -/
theorem extract_error_on_unopenable :
    Extract [] "/missing.mp3" = .error "opening file" := rfl

/-- C3 (amended): for every path that can be opened, `Extract` returns
metadata and never an error, and a tag-reading failure yields the
filename/directory fallback metadata. -/
theorem extract_total_on_openable (fs : List FsEntry) (path : String) (f : FsEntry)
    (h : findFile fs path = some f) :
    Extract fs path = .ok (extractContent f.content path) ∧
    (f.content = .unreadableTags → Extract fs path = .ok (extractFromFilename path)) := by
  constructor
  · simp [Extract, h]
  · intro hc
    simp [Extract, h, hc, extractContent]

theorem extract_total_on_openable_witness :
    findFile [⟨"/m/x.mp3", 0, 0, .unreadableTags⟩] "/m/x.mp3" =
        some ⟨"/m/x.mp3", 0, 0, .unreadableTags⟩ ∧
      (Extract [⟨"/m/x.mp3", 0, 0, .unreadableTags⟩] "/m/x.mp3" =
          .ok (extractContent .unreadableTags "/m/x.mp3") ∧
        (FileContent.unreadableTags = .unreadableTags →
          Extract [⟨"/m/x.mp3", 0, 0, .unreadableTags⟩] "/m/x.mp3" =
            .ok (extractFromFilename "/m/x.mp3"))) :=
  ⟨by decide,
    extract_total_on_openable [⟨"/m/x.mp3", 0, 0, .unreadableTags⟩] "/m/x.mp3"
      ⟨"/m/x.mp3", 0, 0, .unreadableTags⟩ (by decide)⟩

/-- C4: for the tagless file `.../My Band/Sketches (2021)/03 - Interlude.mp3`
extraction yields title "Interlude", track 3, album "Sketches" (year
bracket stripped), year 2021, and artist "My Band" (grandparent directory). -/
theorem extract_filename_fallback_example :
    Extract [⟨"/music/My Band/Sketches (2021)/03 - Interlude.mp3", 0, 0, .unreadableTags⟩]
        "/music/My Band/Sketches (2021)/03 - Interlude.mp3" =
      .ok (extractFromFilename "/music/My Band/Sketches (2021)/03 - Interlude.mp3") ∧
    (extractFromFilename "/music/My Band/Sketches (2021)/03 - Interlude.mp3").title
      = "Interlude" ∧
    (extractFromFilename "/music/My Band/Sketches (2021)/03 - Interlude.mp3").trackNumber
      = 3 ∧
    (extractFromFilename "/music/My Band/Sketches (2021)/03 - Interlude.mp3").album
      = "Sketches" ∧
    (extractFromFilename "/music/My Band/Sketches (2021)/03 - Interlude.mp3").year
      = 2021 ∧
    (extractFromFilename "/music/My Band/Sketches (2021)/03 - Interlude.mp3").artist
      = "My Band" := by
  refine ⟨rfl, ?_, ?_, ?_, ?_, ?_⟩ <;> decide

/-- The scanning/processing statuses are only ever observable while the
`scanning` boolean is held: every mutation `scan` performs keeps it so. -/
theorem svc_scanning_invariant {s : SvcState} (h : SvcReachable s) :
    (s.status = .scanning ∨ s.status = .processing) → s.scanning = true := by
  induction h with
  | init => intro hst; rcases hst with hst | hst <;> simp at hst
  | step _ hs ih =>
    cases hs with
    | beginScan h1 => intro _; rfl
    | toProcessing h1 h2 => intro _; exact h1
    | finishScan t h1 h2 => intro _; exact h1
    | releaseScan h1 h2 =>
      intro hst
      rcases h2 with h2 | h2 | h2 <;> rcases hst with hst | hst <;> simp_all

/-- C5: while a scan is in state `scanning` or `processing`, a further scan
request is rejected with the scan-in-progress conflict error and leaves the
service state unchanged (nothing is queued): at most one scan is active. -/
theorem second_scan_rejected (s : SvcState) (hr : SvcReachable s)
    (h : s.status = .scanning ∨ s.status = .processing) :
    startScanRequest s = (s, some "scan already in progress") := by
  have hb := svc_scanning_invariant hr h
  simp [startScanRequest, hb]

theorem second_scan_rejected_witness :
    startScanRequest ⟨true, .scanning⟩ =
      (⟨true, .scanning⟩, some "scan already in progress") :=
  second_scan_rejected ⟨true, .scanning⟩
    (SvcReachable.step SvcReachable.init (SvcStep.beginScan ⟨false, .idle⟩ rfl))
    (Or.inl rfl)

/-- C6: resolving the pass-through "original" profile returns the source path
itself, and a stream request for quality "original" never runs the
transcoding engine. -/
theorem original_profile_passthrough (digest : String → String)
    (fmtDate : Nat → String) (st : TState) (stat : String → Option Nat)
    (src : String) :
    GetCachedPath digest fmtDate st stat src ProfileOriginal = src ∧
    streamEngineRuns digest fmtDate st stat src "original" = 0 := by
  constructor
  · simp [GetCachedPath, ProfileOriginal]
  · simp [streamEngineRuns]

/-- C7 counterexample: changing the source modification time by less than a
second (0ns to 999999999ns) leaves the cache-key preimage — hence the key,
whatever the digest — unchanged, because `time.RFC3339` renders whole
seconds only. -/
theorem cache_key_subsecond_collision :
    getCacheKey (fun s => s) (fun n => toString n) "/m/a.mp3" "high" (some 0) =
      getCacheKey (fun s => s) (fun n => toString n) "/m/a.mp3" "high" (some 999999999) ∧
    (0 : Nat) ≠ 999999999 := ⟨rfl, by decide⟩

/-- The cached path depends on the cache state only through the cache
directory, which `TranscodeAndCache` never changes. -/
theorem tac_state_cacheDir (digest : String → String) (fmtDate : Nat → String)
    (st : TState) (stat : String → Option Nat) (input : String) (p : Profile) :
    (TranscodeAndCache digest fmtDate st stat input p).state.cacheDir = st.cacheDir := by
  unfold TranscodeAndCache
  split <;> rfl

theorem tac_path_eq (digest : String → String) (fmtDate : Nat → String)
    (st : TState) (stat : String → Option Nat) (input : String) (p : Profile) :
    (TranscodeAndCache digest fmtDate st stat input p).path
      = cachedPathFor digest fmtDate st stat input p := by
  unfold TranscodeAndCache
  split <;> rfl

/-- After `TranscodeAndCache` the cache holds the output file. -/
theorem tac_mem (digest : String → String) (fmtDate : Nat → String)
    (st : TState) (stat : String → Option Nat) (input : String) (p : Profile) :
    (TranscodeAndCache digest fmtDate st stat input p).state.cacheFiles.contains
      (cachedPathFor digest fmtDate st stat input p) = true := by
  unfold TranscodeAndCache
  split
  · next h => exact h
  · next h => simp

/-- A call that finds its output file cached returns it unchanged with no
engine run. -/
theorem transcodeAndCache_hit {digest : String → String} {fmtDate : Nat → String}
    {st : TState} {stat : String → Option Nat} {input : String} {p : Profile}
    (h : st.cacheFiles.contains (cachedPathFor digest fmtDate st stat input p) = true) :
    TranscodeAndCache digest fmtDate st stat input p =
      ⟨cachedPathFor digest fmtDate st stat input p, st, 0⟩ := by
  unfold TranscodeAndCache
  exact if_pos h

/-- C7 (amended): resolving the same (source, profile) twice with the source
unchanged returns the identical cached path, the second call a pure cache
hit (no engine run, no state change); and a modification-time change yields
a different cache key whenever it changes the whole-second (RFC3339)
rendering — sub-second changes reuse the key. -/
theorem cache_hit_and_key_change (digest : String → String)
    (fmtDate : Nat → String) (st : TState) (stat : String → Option Nat)
    (input pname : String) (p : Profile) (t t' : Nat)
    (hd : Function.Injective digest) (hf : Function.Injective fmtDate)
    (hsec : t / 1000000000 ≠ t' / 1000000000) :
    ((TranscodeAndCache digest fmtDate
        (TranscodeAndCache digest fmtDate st stat input p).state stat input p).path
      = (TranscodeAndCache digest fmtDate st stat input p).path ∧
     (TranscodeAndCache digest fmtDate
        (TranscodeAndCache digest fmtDate st stat input p).state stat input p).engineRuns
      = 0 ∧
     (TranscodeAndCache digest fmtDate
        (TranscodeAndCache digest fmtDate st stat input p).state stat input p).state
      = (TranscodeAndCache digest fmtDate st stat input p).state) ∧
    getCacheKey digest fmtDate input pname (some t) ≠
      getCacheKey digest fmtDate input pname (some t') := by
  constructor
  · have hcp : cachedPathFor digest fmtDate
        (TranscodeAndCache digest fmtDate st stat input p).state stat input p
        = cachedPathFor digest fmtDate st stat input p := by
      unfold cachedPathFor
      rw [tac_state_cacheDir]
    have hmem : (TranscodeAndCache digest fmtDate st stat input p).state.cacheFiles.contains
        (cachedPathFor digest fmtDate
          (TranscodeAndCache digest fmtDate st stat input p).state stat input p) = true := by
      rw [hcp]; exact tac_mem digest fmtDate st stat input p
    have hhit := transcodeAndCache_hit hmem
    rw [hhit, hcp, tac_path_eq]
    exact ⟨rfl, rfl, rfl⟩
  · intro h
    have hdata := hd h
    have hfmt : fmtDate (t / 1000000000) = fmtDate (t' / 1000000000) := by
      have h2 := congrArg String.data hdata
      simp only [getCacheKeyData, String.data_append] at h2
      have h6 : (fmtDate (t / 1000000000)).data = (fmtDate (t' / 1000000000)).data :=
        List.append_cancel_left h2
      cases hfe : fmtDate (t / 1000000000)
      cases hfe' : fmtDate (t' / 1000000000)
      simp_all
    exact hsec (hf hfmt)

theorem cache_hit_and_key_change_witness :
    Function.Injective (fun s : String => s) ∧
    Function.Injective (fun n : Nat => String.mk (List.replicate n 'a')) ∧
    (0 : Nat) / 1000000000 ≠ (2000000000 : Nat) / 1000000000 ∧
    (((TranscodeAndCache (fun s => s) (fun n => String.mk (List.replicate n 'a'))
        (TranscodeAndCache (fun s => s) (fun n => String.mk (List.replicate n 'a'))
          {} (fun _ => none) "/m/a.mp3" ProfileHigh).state
        (fun _ => none) "/m/a.mp3" ProfileHigh).path
      = (TranscodeAndCache (fun s => s) (fun n => String.mk (List.replicate n 'a'))
          {} (fun _ => none) "/m/a.mp3" ProfileHigh).path ∧
     (TranscodeAndCache (fun s => s) (fun n => String.mk (List.replicate n 'a'))
        (TranscodeAndCache (fun s => s) (fun n => String.mk (List.replicate n 'a'))
          {} (fun _ => none) "/m/a.mp3" ProfileHigh).state
        (fun _ => none) "/m/a.mp3" ProfileHigh).engineRuns = 0 ∧
     (TranscodeAndCache (fun s => s) (fun n => String.mk (List.replicate n 'a'))
        (TranscodeAndCache (fun s => s) (fun n => String.mk (List.replicate n 'a'))
          {} (fun _ => none) "/m/a.mp3" ProfileHigh).state
        (fun _ => none) "/m/a.mp3" ProfileHigh).state
      = (TranscodeAndCache (fun s => s) (fun n => String.mk (List.replicate n 'a'))
          {} (fun _ => none) "/m/a.mp3" ProfileHigh).state) ∧
    getCacheKey (fun s => s) (fun n => String.mk (List.replicate n 'a'))
        "/m/a.mp3" "high" (some 0) ≠
      getCacheKey (fun s => s) (fun n => String.mk (List.replicate n 'a'))
        "/m/a.mp3" "high" (some 2000000000)) := by
  have hd : Function.Injective (fun s : String => s) := fun a b h => h
  have hf : Function.Injective (fun n : Nat => String.mk (List.replicate n 'a')) := by
    intro a b h
    have := congrArg (fun s : String => s.data.length) h
    simpa using this
  exact ⟨hd, hf, by decide,
    cache_hit_and_key_change (fun s => s) (fun n => String.mk (List.replicate n 'a'))
      {} (fun _ => none) "/m/a.mp3" "high" ProfileHigh 0 2000000000 hd hf (by decide)⟩

theorem mem_insertByTime {f x : CFile} {l : List CFile} :
    x ∈ insertByTime f l ↔ x = f ∨ x ∈ l := by
  induction l with
  | nil => simp [insertByTime]
  | cons g rest ih =>
    unfold insertByTime
    by_cases h : f.modTime ≤ g.modTime
    · rw [if_pos h]
      simp
    · rw [if_neg h]
      simp [ih]
      tauto

theorem length_insertByTime (f : CFile) (l : List CFile) :
    (insertByTime f l).length = l.length + 1 := by
  induction l with
  | nil => rfl
  | cons g rest ih =>
    unfold insertByTime
    by_cases h : f.modTime ≤ g.modTime
    · rw [if_pos h]; rfl
    · rw [if_neg h]; simp [ih]

theorem mem_sortByModTime {x : CFile} {l : List CFile} :
    x ∈ sortByModTime l ↔ x ∈ l := by
  induction l with
  | nil => simp [sortByModTime]
  | cons f rest ih =>
    unfold sortByModTime
    rw [mem_insertByTime]
    simp [ih]

theorem length_sortByModTime (l : List CFile) :
    (sortByModTime l).length = l.length := by
  induction l with
  | nil => rfl
  | cons f rest ih =>
    unfold sortByModTime
    rw [length_insertByTime, ih]
    rfl

theorem sorted_insertByTime {f : CFile} {l : List CFile}
    (h : l.Pairwise (fun a b => a.modTime ≤ b.modTime)) :
    (insertByTime f l).Pairwise (fun a b => a.modTime ≤ b.modTime) := by
  induction l with
  | nil => simp [insertByTime]
  | cons g rest ih =>
    unfold insertByTime
    rcases List.pairwise_cons.mp h with ⟨hg, hrest⟩
    by_cases hle : f.modTime ≤ g.modTime
    · rw [if_pos hle]
      refine List.Pairwise.cons ?_ h
      intro b hb
      rcases List.mem_cons.mp hb with rfl | hb
      · exact hle
      · exact le_trans hle (hg b hb)
    · rw [if_neg hle]
      refine List.Pairwise.cons ?_ (ih hrest)
      intro b hb
      rcases mem_insertByTime.mp hb with rfl | hb
      · omega
      · exact hg b hb

/-- The eviction scan considers files in ascending modification-time order. -/
theorem sorted_sortByModTime (l : List CFile) :
    (sortByModTime l).Pairwise (fun a b => a.modTime ≤ b.modTime) := by
  induction l with
  | nil => simp [sortByModTime]
  | cons f rest ih => exact sorted_insertByTime ih

/-- The removal loop takes a minimal prefix: what it removes is an initial
segment of its input, the tracked size decreases by exactly the removed
sizes, before every removal the size still exceeded the target, and if it
stopped before exhausting the list the final size is at or below the
target. -/
theorem evictLoop_spec (target : Int) :
    ∀ (l : List CFile) (cur : Int),
      (evictLoop target cur l).1 = l.take (evictLoop target cur l).1.length ∧
      (evictLoop target cur l).2 =
        cur - (((evictLoop target cur l).1.map (fun f => (f.size : Int))).sum) ∧
      (∀ k, k < (evictLoop target cur l).1.length →
        target < cur - (((l.take k).map (fun f => (f.size : Int))).sum)) ∧
      ((evictLoop target cur l).1.length < l.length →
        (evictLoop target cur l).2 ≤ target) := by
  intro l
  induction l with
  | nil =>
    intro cur
    refine ⟨rfl, by simp [evictLoop], ?_, ?_⟩
    · intro k hk; simp [evictLoop] at hk
    · intro hlt; simp [evictLoop] at hlt
  | cons f rest ih =>
    intro cur
    unfold evictLoop
    by_cases hle : cur ≤ target
    · rw [if_pos hle]
      refine ⟨rfl, by simp, ?_, fun _ => hle⟩
      intro k hk; simp at hk
    · rw [if_neg hle]
      obtain ⟨ih1, ih2, ih3, ih4⟩ := ih (cur - (f.size : Int))
      refine ⟨?_, ?_, ?_, ?_⟩
      · simpa using ih1
      · simp only [List.map_cons, List.sum_cons]
        rw [ih2]; ring
      · intro k hk
        match k with
        | 0 => simpa using hle
        | k' + 1 =>
          simp only [List.take_succ_cons, List.map_cons, List.sum_cons]
          have := ih3 k' (by simpa using hk)
          omega
      · intro hlt
        exact ih4 (by simpa using hlt)

/-- C8: whenever adding a cache entry pushes the tracked size above the
ceiling, cleanup removes files in ascending modification-time order, stops
as soon as the tracked size is at or below 80% of the ceiling (every file it
does remove is removed while the size still exceeds that target), and a
newer file is removed only after all older files: every removed file is no
newer than every kept file. -/
theorem eviction_oldest_first (maxBytes : Nat) (cacheSize : Int) (added : Nat)
    (files : List CFile)
    (htrig : (updateCacheSize maxBytes cacheSize added).2 = true) :
    (cleanupCache (cleanupTarget maxBytes) (cacheSize + (added : Int)) files).1
      = (sortByModTime files).take
          (cleanupCache (cleanupTarget maxBytes) (cacheSize + (added : Int)) files).1.length ∧
    (∀ f ∈ (cleanupCache (cleanupTarget maxBytes) (cacheSize + (added : Int)) files).1,
        f ∈ files) ∧
    (cleanupCache (cleanupTarget maxBytes) (cacheSize + (added : Int)) files).2
      = cacheSize + (added : Int)
        - (((cleanupCache (cleanupTarget maxBytes) (cacheSize + (added : Int)) files).1.map
            (fun f => (f.size : Int))).sum) ∧
    (∀ k, k < (cleanupCache (cleanupTarget maxBytes) (cacheSize + (added : Int)) files).1.length →
        ((cleanupTarget maxBytes : Nat) : Int) <
          cacheSize + (added : Int)
            - ((((sortByModTime files).take k).map (fun f => (f.size : Int))).sum)) ∧
    ((cleanupCache (cleanupTarget maxBytes) (cacheSize + (added : Int)) files).1.length
        < files.length →
      (cleanupCache (cleanupTarget maxBytes) (cacheSize + (added : Int)) files).2
        ≤ ((cleanupTarget maxBytes : Nat) : Int)) ∧
    (∀ f ∈ (cleanupCache (cleanupTarget maxBytes) (cacheSize + (added : Int)) files).1,
      ∀ g ∈ (sortByModTime files).drop
          (cleanupCache (cleanupTarget maxBytes) (cacheSize + (added : Int)) files).1.length,
        f.modTime ≤ g.modTime) := by
  simp only [cleanupCache]
  obtain ⟨h1, h2, h3, h4⟩ :=
    evictLoop_spec ((cleanupTarget maxBytes : Nat) : Int) (sortByModTime files)
      (cacheSize + (added : Int))
  refine ⟨h1, ?_, h2, h3, ?_, ?_⟩
  · intro f hf
    have hf2 : f ∈ sortByModTime files := by
      rw [h1] at hf
      exact List.take_subset _ _ hf
    exact mem_sortByModTime.mp hf2
  · intro hlt
    exact h4 (by rwa [length_sortByModTime])
  · intro f hf g hg
    have hs := sorted_sortByModTime files
    set n := (evictLoop ((cleanupTarget maxBytes : Nat) : Int) (cacheSize + (added : Int))
      (sortByModTime files)).1.length with hn
    rw [← List.take_append_drop n (sortByModTime files)] at hs
    have hsplit := (List.pairwise_append.mp hs).2.2
    rw [h1] at hf
    exact hsplit f hf g hg

theorem eviction_oldest_first_witness :
    (updateCacheSize 100 90 60).2 = true ∧
    ((cleanupCache (cleanupTarget 100) ((90 : Int) + ((60 : Nat) : Int))
        [⟨"/c/a", 50, 5⟩, ⟨"/c/b", 60, 2⟩, ⟨"/c/c", 30, 9⟩]).1
      = (sortByModTime [⟨"/c/a", 50, 5⟩, ⟨"/c/b", 60, 2⟩, ⟨"/c/c", 30, 9⟩]).take
          (cleanupCache (cleanupTarget 100) ((90 : Int) + ((60 : Nat) : Int))
            [⟨"/c/a", 50, 5⟩, ⟨"/c/b", 60, 2⟩, ⟨"/c/c", 30, 9⟩]).1.length ∧
    (∀ f ∈ (cleanupCache (cleanupTarget 100) ((90 : Int) + ((60 : Nat) : Int))
        [⟨"/c/a", 50, 5⟩, ⟨"/c/b", 60, 2⟩, ⟨"/c/c", 30, 9⟩]).1,
        f ∈ [⟨"/c/a", 50, 5⟩, ⟨"/c/b", 60, 2⟩, (⟨"/c/c", 30, 9⟩ : CFile)]) ∧
    (cleanupCache (cleanupTarget 100) ((90 : Int) + ((60 : Nat) : Int))
        [⟨"/c/a", 50, 5⟩, ⟨"/c/b", 60, 2⟩, ⟨"/c/c", 30, 9⟩]).2
      = (90 : Int) + ((60 : Nat) : Int)
        - (((cleanupCache (cleanupTarget 100) ((90 : Int) + ((60 : Nat) : Int))
            [⟨"/c/a", 50, 5⟩, ⟨"/c/b", 60, 2⟩, ⟨"/c/c", 30, 9⟩]).1.map
            (fun f => (f.size : Int))).sum) ∧
    (∀ k, k < (cleanupCache (cleanupTarget 100) ((90 : Int) + ((60 : Nat) : Int))
        [⟨"/c/a", 50, 5⟩, ⟨"/c/b", 60, 2⟩, ⟨"/c/c", 30, 9⟩]).1.length →
        ((cleanupTarget 100 : Nat) : Int) <
          (90 : Int) + ((60 : Nat) : Int)
            - ((((sortByModTime [⟨"/c/a", 50, 5⟩, ⟨"/c/b", 60, 2⟩, ⟨"/c/c", 30, 9⟩]).take k).map
                (fun f => (f.size : Int))).sum)) ∧
    ((cleanupCache (cleanupTarget 100) ((90 : Int) + ((60 : Nat) : Int))
        [⟨"/c/a", 50, 5⟩, ⟨"/c/b", 60, 2⟩, ⟨"/c/c", 30, 9⟩]).1.length
        < ([⟨"/c/a", 50, 5⟩, ⟨"/c/b", 60, 2⟩, (⟨"/c/c", 30, 9⟩ : CFile)] : List CFile).length →
      (cleanupCache (cleanupTarget 100) ((90 : Int) + ((60 : Nat) : Int))
        [⟨"/c/a", 50, 5⟩, ⟨"/c/b", 60, 2⟩, ⟨"/c/c", 30, 9⟩]).2
        ≤ ((cleanupTarget 100 : Nat) : Int)) ∧
    (∀ f ∈ (cleanupCache (cleanupTarget 100) ((90 : Int) + ((60 : Nat) : Int))
        [⟨"/c/a", 50, 5⟩, ⟨"/c/b", 60, 2⟩, ⟨"/c/c", 30, 9⟩]).1,
      ∀ g ∈ (sortByModTime [⟨"/c/a", 50, 5⟩, ⟨"/c/b", 60, 2⟩, ⟨"/c/c", 30, 9⟩]).drop
          (cleanupCache (cleanupTarget 100) ((90 : Int) + ((60 : Nat) : Int))
            [⟨"/c/a", 50, 5⟩, ⟨"/c/b", 60, 2⟩, ⟨"/c/c", 30, 9⟩]).1.length,
        f.modTime ≤ g.modTime)) :=
  ⟨by decide, eviction_oldest_first 100 90 60
    [⟨"/c/a", 50, 5⟩, ⟨"/c/b", 60, 2⟩, ⟨"/c/c", 30, 9⟩] (by decide)⟩

/-- C9: on a 1000-byte file, `Range: bytes=100-199` yields status 206 with
`Content-Range: bytes 100-199/1000` and a body of exactly the 100 bytes at
offsets 100 through 199, while `Range: bytes=2000-` yields status 416. -/
theorem range_request_example :
    (serveRange (List.range 1000) "bytes=100-199").status = 206 ∧
    (serveRange (List.range 1000) "bytes=100-199").contentRange
      = some "bytes 100-199/1000" ∧
    (serveRange (List.range 1000) "bytes=100-199").contentLength = some 100 ∧
    (serveRange (List.range 1000) "bytes=100-199").body
      = ((List.range 1000).drop 100).take 100 ∧
    (serveRange (List.range 1000) "bytes=100-199").body = List.range' 100 100 ∧
    (serveRange (List.range 1000) "bytes=2000-").status = 416 := by
  refine ⟨rfl, rfl, rfl, rfl, by decide, rfl⟩

/-! ### Repository plumbing lemmas -/

@[simp] theorem tracks_findOrCreateArtist (db : DB) (n : String) :
    (findOrCreateArtist db n).tracks = db.tracks := by
  unfold findOrCreateArtist; split <;> rfl

@[simp] theorem tracks_findOrCreateAlbum (db : DB) (t a : String) (y : Nat) :
    (findOrCreateAlbum db t a y).tracks = db.tracks := by
  unfold findOrCreateAlbum; split <;> rfl

@[simp] theorem albums_findOrCreateArtist (db : DB) (n : String) :
    (findOrCreateArtist db n).albums = db.albums := by
  unfold findOrCreateArtist; split <;> rfl

@[simp] theorem artists_findOrCreateAlbum (db : DB) (t a : String) (y : Nat) :
    (findOrCreateAlbum db t a y).artists = db.artists := by
  unfold findOrCreateAlbum; split <;> rfl

theorem albums_sublist_findOrCreateAlbum (db : DB) (t a : String) (y : Nat) :
    List.Sublist db.albums (findOrCreateAlbum db t a y).albums := by
  unfold findOrCreateAlbum
  split
  · exact List.Sublist.refl _
  · exact List.sublist_append_left _ _

theorem artists_sublist_findOrCreateArtist (db : DB) (n : String) :
    List.Sublist db.artists (findOrCreateArtist db n).artists := by
  unfold findOrCreateArtist
  split
  · exact List.Sublist.refl _
  · exact List.sublist_append_left _ _

@[simp] theorem albums_upsertTrack (db : DB) (tr : Track) :
    (upsertTrack db tr).1.albums = db.albums := by
  unfold upsertTrack
  cases db.tracks.find? (fun t => t.path = tr.path) <;> rfl

@[simp] theorem artists_upsertTrack (db : DB) (tr : Track) :
    (upsertTrack db tr).1.artists = db.artists := by
  unfold upsertTrack
  cases db.tracks.find? (fun t => t.path = tr.path) <;> rfl

/-- Replacing the row whose path matches leaves every per-path row count
unchanged (the replacement row carries the same path). -/
theorem countP_map_update (l : List Track) (tr : Track) (q : String) :
    ((l.map (fun t => if t.path = tr.path then tr else t)).countP
        (fun t => t.path = q))
      = l.countP (fun t => t.path = q) := by
  induction l with
  | nil => rfl
  | cons a l ih =>
    simp only [List.map_cons, List.countP_cons, ih]
    by_cases h : a.path = tr.path
    · rw [if_pos h, ← h]
    · rw [if_neg h]

theorem find?_isSome_of_pred {α : Type} (p : α → Bool) :
    ∀ (l : List α) (x : α), x ∈ l → p x = true → (l.find? p).isSome = true := by
  intro l
  induction l with
  | nil => intro x hx; simp at hx
  | cons a l ih =>
    intro x hx hp
    by_cases ha : p a
    · rw [List.find?_cons_of_pos _ ha]; rfl
    · rw [List.find?_cons_of_neg _ ha]
      rcases List.mem_cons.mp hx with rfl | hx
      · exact absurd hp ha
      · exact ih x hx hp

theorem find?_path_none_of_countPath_zero {db : DB} {p : String}
    (h : countPath db p = 0) :
    db.tracks.find? (fun t => t.path = p) = none := by
  rw [List.find?_eq_none]
  intro x hx
  have hz := List.countP_eq_zero.mp h x hx
  simpa using hz

theorem find?_path_isSome_of_countPath_ne_zero {db : DB} {p : String}
    (h : countPath db p ≠ 0) :
    (db.tracks.find? (fun t => t.path = p)).isSome = true := by
  have hex : ∃ x ∈ db.tracks, x.path = p := by
    by_contra hno
    push_neg at hno
    exact h (List.countP_eq_zero.mpr (by intro a ha; simpa using hno a ha))
  obtain ⟨x, hx, hxp⟩ := hex
  exact find?_isSome_of_pred _ db.tracks x hx (by simpa using hxp)

theorem upsertTrack_new {db : DB} {tr : Track} (h : countPath db tr.path = 0) :
    upsertTrack db tr = ({ db with tracks := db.tracks ++ [tr] }, .newTrack) := by
  unfold upsertTrack
  rw [find?_path_none_of_countPath_zero h]

theorem upsertTrack_existing {db : DB} {tr : Track} (h : countPath db tr.path ≠ 0) :
    upsertTrack db tr =
      ({ db with tracks := db.tracks.map (fun t => if t.path = tr.path then tr else t) },
       .updatedTrack) := by
  unfold upsertTrack
  obtain ⟨x, hx⟩ :=
    Option.isSome_iff_exists.mp (find?_path_isSome_of_countPath_ne_zero h)
  rw [hx]

/-! ### processFile lemmas -/

theorem extract_ok_of_findFile {fs : List FsEntry} {path : String}
    (h : (findFile fs path).isSome = true) :
    ∃ m, Extract fs path = .ok m := by
  unfold Extract
  cases hff : findFile fs path with
  | none => rw [hff] at h; simp at h
  | some f => exact ⟨extractContent f.content path, rfl⟩

theorem processFile_ok_new {fs : List FsEntry} {db : DB} {fi : FileInfo}
    {m : TrackMetadata} (hE : Extract fs fi.path = .ok m)
    (h0 : countPath db fi.path = 0) :
    (processFile fs db fi).2 = .newTrack ∧
    ∀ q, countPath (processFile fs db fi).1 q
      = countPath db q + (if fi.path = q then 1 else 0) := by
  have htr : countPath
      (findOrCreateAlbum (findOrCreateArtist db m.artist) m.album m.artist m.year)
      (mkTrack m fi).path = 0 := by
    unfold countPath
    rw [tracks_findOrCreateAlbum, tracks_findOrCreateArtist]
    exact h0
  unfold processFile
  rw [hE]
  dsimp only
  rw [upsertTrack_new htr]
  refine ⟨rfl, ?_⟩
  intro q
  unfold countPath
  simp only [tracks_findOrCreateAlbum, tracks_findOrCreateArtist, List.countP_append,
    List.countP_cons, List.countP_nil]
  have hpath : (mkTrack m fi).path = fi.path := rfl
  by_cases hq : fi.path = q
  · rw [if_pos hq]
    simp [hpath, hq]
  · rw [if_neg hq]
    simp [hpath, hq]

theorem processFile_ok_existing {fs : List FsEntry} {db : DB} {fi : FileInfo}
    {m : TrackMetadata} (hE : Extract fs fi.path = .ok m)
    (h1 : countPath db fi.path ≠ 0) :
    (processFile fs db fi).2 = .updatedTrack ∧
    ∀ q, countPath (processFile fs db fi).1 q = countPath db q := by
  have htr : countPath
      (findOrCreateAlbum (findOrCreateArtist db m.artist) m.album m.artist m.year)
      (mkTrack m fi).path ≠ 0 := by
    unfold countPath
    rw [tracks_findOrCreateAlbum, tracks_findOrCreateArtist]
    exact h1
  unfold processFile
  rw [hE]
  dsimp only
  rw [upsertTrack_existing htr]
  refine ⟨rfl, ?_⟩
  intro q
  unfold countPath
  simp only [tracks_findOrCreateAlbum, tracks_findOrCreateArtist]
  exact countP_map_update db.tracks (mkTrack m fi) q

theorem processFile_mono (fs : List FsEntry) (db : DB) (fi : FileInfo) :
    ∀ q, countPath db q ≤ countPath (processFile fs db fi).1 q := by
  intro q
  cases hE : Extract fs fi.path with
  | error e =>
    unfold processFile
    rw [hE]
  | ok m =>
    by_cases h0 : countPath db fi.path = 0
    · rw [(processFile_ok_new hE h0).2 q]; omega
    · rw [(processFile_ok_existing hE h0).2 q]

theorem processFile_albums (fs : List FsEntry) (db : DB) (fi : FileInfo) :
    List.Sublist db.albums (processFile fs db fi).1.albums := by
  cases hE : Extract fs fi.path with
  | error e =>
    unfold processFile
    rw [hE]
  | ok m =>
    unfold processFile
    rw [hE]
    dsimp only
    rw [albums_upsertTrack]
    have h1 : db.albums = (findOrCreateArtist db m.artist).albums :=
      (albums_findOrCreateArtist db m.artist).symm
    rw [h1]
    exact albums_sublist_findOrCreateAlbum _ _ _ _

theorem processFile_artists (fs : List FsEntry) (db : DB) (fi : FileInfo) :
    List.Sublist db.artists (processFile fs db fi).1.artists := by
  cases hE : Extract fs fi.path with
  | error e =>
    unfold processFile
    rw [hE]
  | ok m =>
    unfold processFile
    rw [hE]
    dsimp only
    rw [artists_upsertTrack, artists_findOrCreateAlbum]
    exact artists_sublist_findOrCreateArtist _ _

theorem processFile_present {fs : List FsEntry} {db : DB} {fi : FileInfo}
    {m : TrackMetadata} (hE : Extract fs fi.path = .ok m) :
    countPath (processFile fs db fi).1 fi.path ≠ 0 := by
  by_cases h0 : countPath db fi.path = 0
  · rw [(processFile_ok_new hE h0).2 fi.path]
    simp
  · rw [(processFile_ok_existing hE h0).2 fi.path]
    exact h0

/-! ### Worker-loop lemmas -/

@[simp] theorem decCancel_none : decCancel none = none := rfl

@[simp] theorem decCancel_some (n : Nat) : decCancel (some n) = some (n - 1) := rfl

@[simp] theorem publishProgress_status (pr : ScanProgress) (c : Counters) (cur : String) :
    (publishProgress pr c cur).status = pr.status := rfl

@[simp] theorem publishProgress_totalFiles (pr : ScanProgress) (c : Counters) (cur : String) :
    (publishProgress pr c cur).totalFiles = pr.totalFiles := rfl

@[simp] theorem publishProgress_deletedTracks (pr : ScanProgress) (c : Counters) (cur : String) :
    (publishProgress pr c cur).deletedTracks = pr.deletedTracks := rfl

theorem loop_nil (run : DB → FileInfo → DB × FileOutcome) (total : Nat)
    (cl : Option Nat) (db : DB) (c : Counters) (pr : ScanProgress)
    (pub : List ScanProgress) :
    processFilesLoop run total cl db c pr pub [] = ⟨db, c, pr, pub, false⟩ := rfl

/-- With no cancellation the loop always runs the whole list. -/
theorem loop_none_no_cancel (run : DB → FileInfo → DB × FileOutcome) (total : Nat) :
    ∀ (files : List FileInfo) (db : DB) (c : Counters) (pr : ScanProgress)
      (pub : List ScanProgress),
      (processFilesLoop run total none db c pr pub files).cancelled = false := by
  intro files
  induction files with
  | nil => intro db c pr pub; rfl
  | cons fi rest ih =>
    intro db c pr pub
    unfold processFilesLoop
    rw [if_neg (show ¬ ((none : Option Nat) = some 0) by simp)]
    exact ih _ _ _ _

/-- A cancellation signal that arrives only after every dispatch is never
observed by the loop. -/
theorem loop_cancel_big (run : DB → FileInfo → DB × FileOutcome) (total : Nat) :
    ∀ (files : List FileInfo) (k : Nat) (db : DB) (c : Counters) (pr : ScanProgress)
      (pub : List ScanProgress), files.length ≤ k →
      processFilesLoop run total (some k) db c pr pub files
        = processFilesLoop run total none db c pr pub files := by
  intro files
  induction files with
  | nil => intro k db c pr pub hk; rfl
  | cons fi rest ih =>
    intro k db c pr pub hk
    have hk1 : rest.length + 1 ≤ k := by simpa using hk
    conv_lhs => unfold processFilesLoop
    conv_rhs => unfold processFilesLoop
    rw [if_neg (show ¬ (some k = some (0 : Nat)) by simp; omega),
        if_neg (show ¬ ((none : Option Nat) = some 0) by simp)]
    simp only [decCancel_some, decCancel_none]
    exact ih _ _ _ _ _ (by omega)

/-- Cancellation observed before dispatching the `k`-th file stops the loop
exactly after the first `k` files: the effects are those of the uncancelled
loop over `files.take k`, with the cancelled flag raised. -/
theorem loop_cancel_take (run : DB → FileInfo → DB × FileOutcome) (total : Nat) :
    ∀ (files : List FileInfo) (k : Nat) (db : DB) (c : Counters) (pr : ScanProgress)
      (pub : List ScanProgress), k < files.length →
      processFilesLoop run total (some k) db c pr pub files
        = { processFilesLoop run total none db c pr pub (files.take k) with
            cancelled := true } := by
  intro files
  induction files with
  | nil => intro k db c pr pub hk; simp at hk
  | cons fi rest ih =>
    intro k db c pr pub hk
    match k with
    | 0 =>
      rw [List.take_zero, loop_nil]
      unfold processFilesLoop
      rw [if_pos rfl]
    | k' + 1 =>
      rw [List.take_succ_cons]
      conv_lhs => unfold processFilesLoop
      conv_rhs => unfold processFilesLoop
      rw [if_neg (show ¬ (some (k' + 1) = some (0 : Nat)) by simp),
          if_neg (show ¬ ((none : Option Nat) = some 0) by simp)]
      simp only [decCancel_some, decCancel_none, Nat.add_sub_cancel]
      exact ih k' _ _ _ _ (by simpa using hk)

/-- The loop touches the progress struct only through the periodic counter
publish: status, total and deleted counters pass through unchanged. -/
theorem loop_preserves (run : DB → FileInfo → DB × FileOutcome) (total : Nat) :
    ∀ (files : List FileInfo) (cl : Option Nat) (db : DB) (c : Counters)
      (pr : ScanProgress) (pub : List ScanProgress),
      (processFilesLoop run total cl db c pr pub files).progress.status = pr.status ∧
      (processFilesLoop run total cl db c pr pub files).progress.totalFiles
        = pr.totalFiles ∧
      (processFilesLoop run total cl db c pr pub files).progress.deletedTracks
        = pr.deletedTracks := by
  intro files
  induction files with
  | nil => intro cl db c pr pub; exact ⟨rfl, rfl, rfl⟩
  | cons fi rest ih =>
    intro cl db c pr pub
    unfold processFilesLoop
    by_cases hc : cl = some 0
    · rw [if_pos hc]; exact ⟨rfl, rfl, rfl⟩
    · rw [if_neg hc]
      obtain ⟨i1, i2, i3⟩ := ih (decCancel cl) (run db fi).1
        (stepCounters c (run db fi).2)
        (if shouldPublish (stepCounters c (run db fi).2).processed total then
          publishProgress pr (stepCounters c (run db fi).2) fi.path
        else pr)
        (if shouldPublish (stepCounters c (run db fi).2).processed total then
          pub ++ [publishProgress pr (stepCounters c (run db fi).2) fi.path]
        else pub)
      refine ⟨?_, ?_, ?_⟩
      · rw [i1]; split <;> rfl
      · rw [i2]; split <;> rfl
      · rw [i3]; split <;> rfl

@[simp] theorem stepCounters_processed (c : Counters) (o : FileOutcome) :
    (stepCounters c o).processed = c.processed + 1 := by
  cases o <;> rfl

/-- Once the loop has dispatched its last file, the progress struct holds the
final counters: the last increment satisfies `processed == len(files)` and is
therefore always published. -/
theorem loop_final_aux (run : DB → FileInfo → DB × FileOutcome) (total : Nat) :
    ∀ (files : List FileInfo) (db : DB) (c : Counters) (pr : ScanProgress)
      (pub : List ScanProgress), files ≠ [] →
      c.processed + files.length = total →
      ((processFilesLoop run total none db c pr pub files).progress.processedFiles
        = (processFilesLoop run total none db c pr pub files).counters.processed ∧
       (processFilesLoop run total none db c pr pub files).progress.newTracks
        = (processFilesLoop run total none db c pr pub files).counters.newC ∧
       (processFilesLoop run total none db c pr pub files).progress.updatedTracks
        = (processFilesLoop run total none db c pr pub files).counters.updatedC ∧
       (processFilesLoop run total none db c pr pub files).progress.errorCount
        = (processFilesLoop run total none db c pr pub files).counters.errC) ∧
      (processFilesLoop run total none db c pr pub files).counters.processed = total := by
  intro files
  induction files with
  | nil => intro db c pr pub hne; exact absurd rfl hne
  | cons fi rest ih =>
    intro db c pr pub hne hc
    unfold processFilesLoop
    rw [if_neg (show ¬ ((none : Option Nat) = some 0) by simp)]
    simp only [decCancel_none]
    by_cases hrest : rest = []
    · subst hrest
      have hc1 : c.processed + 1 = total := by simpa using hc
      have hstep : (stepCounters c (run db fi).2).processed = total := by
        rw [stepCounters_processed]; exact hc1
      rw [if_pos (show shouldPublish (stepCounters c (run db fi).2).processed total = true
        by simp [shouldPublish, stepCounters_processed, hc1])]
      rw [loop_nil]
      exact ⟨⟨rfl, rfl, rfl, rfl⟩, hstep⟩
    · apply ih _ _ _ _ hrest
      rw [stepCounters_processed]
      simp at hc
      omega

/-- The loop only ever adds or replaces rows: per-path track counts never
decrease and the album/artist tables only grow. -/
theorem loop_mono (fs : List FsEntry) (total : Nat) :
    ∀ (files : List FileInfo) (cl : Option Nat) (db : DB) (c : Counters)
      (pr : ScanProgress) (pub : List ScanProgress),
      (∀ q, countPath db q ≤
        countPath (processFilesLoop (processFile fs) total cl db c pr pub files).db q) ∧
      List.Sublist db.albums
        (processFilesLoop (processFile fs) total cl db c pr pub files).db.albums ∧
      List.Sublist db.artists
        (processFilesLoop (processFile fs) total cl db c pr pub files).db.artists := by
  intro files
  induction files with
  | nil =>
    intro cl db c pr pub
    exact ⟨fun q => le_rfl, List.Sublist.refl _, List.Sublist.refl _⟩
  | cons fi rest ih =>
    intro cl db c pr pub
    unfold processFilesLoop
    by_cases hc : cl = some 0
    · rw [if_pos hc]
      exact ⟨fun q => le_rfl, List.Sublist.refl _, List.Sublist.refl _⟩
    · rw [if_neg hc]
      refine ⟨fun q => le_trans (processFile_mono fs db fi q) ((ih _ _ _ _ _).1 q),
        List.Sublist.trans (processFile_albums fs db fi) (ih _ _ _ _ _).2.1,
        List.Sublist.trans (processFile_artists fs db fi) (ih _ _ _ _ _).2.2⟩

/-- Every file the loop has processed has a row afterwards. -/
theorem loop_present (fs : List FsEntry) (total : Nat) :
    ∀ (files : List FileInfo) (db : DB) (c : Counters) (pr : ScanProgress)
      (pub : List ScanProgress),
      (∀ fi ∈ files, (findFile fs fi.path).isSome = true) →
      ∀ fi ∈ files,
        countPath (processFilesLoop (processFile fs) total none db c pr pub files).db
          fi.path ≠ 0 := by
  intro files
  induction files with
  | nil => intro db c pr pub hfs fi hfi; simp at hfi
  | cons fj rest ih =>
    intro db c pr pub hfs fi hfi
    unfold processFilesLoop
    rw [if_neg (show ¬ ((none : Option Nat) = some 0) by simp)]
    simp only [decCancel_none]
    rcases List.mem_cons.mp hfi with rfl | hfi
    · obtain ⟨m, hE⟩ := extract_ok_of_findFile (hfs fi (List.mem_cons_self _ _))
      have h1 := @processFile_present fs db fi m hE
      have h2 := (loop_mono fs total rest none (processFile fs db fi).1
          (stepCounters c (processFile fs db fi).2)
          (if shouldPublish (stepCounters c (processFile fs db fi).2).processed total then
            publishProgress pr (stepCounters c (processFile fs db fi).2) fi.path
          else pr)
          (if shouldPublish (stepCounters c (processFile fs db fi).2).processed total then
            pub ++ [publishProgress pr (stepCounters c (processFile fs db fi).2) fi.path]
          else pub)).1 fi.path
      omega
    · exact ih _ _ _ _ (fun g hg => hfs g (List.mem_cons_of_mem _ hg)) fi hfi

/-- First-scan accounting: over files with distinct, openable, not-yet-stored
paths the loop creates exactly one row per path, counts every file as new,
and touches no other row. -/
theorem loop_fresh (fs : List FsEntry) (total : Nat) :
    ∀ (files : List FileInfo) (db : DB) (c : Counters) (pr : ScanProgress)
      (pub : List ScanProgress),
      (files.map (fun f => f.path)).Nodup →
      (∀ fi ∈ files, (findFile fs fi.path).isSome = true) →
      (∀ fi ∈ files, countPath db fi.path = 0) →
      (∀ fi ∈ files,
        countPath (processFilesLoop (processFile fs) total none db c pr pub files).db
          fi.path = 1) ∧
      (∀ q, (∀ fi ∈ files, fi.path ≠ q) →
        countPath (processFilesLoop (processFile fs) total none db c pr pub files).db q
          = countPath db q) ∧
      (processFilesLoop (processFile fs) total none db c pr pub files).counters.processed
        = c.processed + files.length ∧
      (processFilesLoop (processFile fs) total none db c pr pub files).counters.newC
        = c.newC + files.length ∧
      (processFilesLoop (processFile fs) total none db c pr pub files).counters.updatedC
        = c.updatedC ∧
      (processFilesLoop (processFile fs) total none db c pr pub files).counters.errC
        = c.errC := by
  intro files
  induction files with
  | nil =>
    intro db c pr pub hnd hfs hz
    refine ⟨fun fi hfi => absurd hfi (List.not_mem_nil fi), fun q hq => rfl, ?_, ?_, rfl, rfl⟩
      <;> simp [loop_nil]
  | cons fi rest ih =>
    intro db c pr pub hnd hfs hz
    obtain ⟨m, hE⟩ := extract_ok_of_findFile (hfs fi (List.mem_cons_self _ _))
    have h0 : countPath db fi.path = 0 := hz fi (List.mem_cons_self _ _)
    obtain ⟨hout, hcount⟩ := processFile_ok_new hE h0
    have hnd2 : (∀ x ∈ rest, ¬ x.path = fi.path) ∧
        (List.map (fun f => f.path) rest).Nodup := by
      simpa using hnd
    have hne : ∀ fj ∈ rest, fj.path ≠ fi.path := fun fj hfj => hnd2.1 fj hfj
    have hz2 : ∀ fj ∈ rest, countPath (processFile fs db fi).1 fj.path = 0 := by
      intro fj hfj
      rw [hcount fj.path, if_neg (fun hcontra => hne fj hfj hcontra.symm)]
      simpa using hz fj (List.mem_cons_of_mem _ hfj)
    unfold processFilesLoop
    rw [if_neg (show ¬ ((none : Option Nat) = some 0) by simp)]
    simp only [decCancel_none]
    obtain ⟨i1, i2, i3, i4, i5, i6⟩ := ih (processFile fs db fi).1
      (stepCounters c (processFile fs db fi).2)
      (if shouldPublish (stepCounters c (processFile fs db fi).2).processed total then
        publishProgress pr (stepCounters c (processFile fs db fi).2) fi.path
      else pr)
      (if shouldPublish (stepCounters c (processFile fs db fi).2).processed total then
        pub ++ [publishProgress pr (stepCounters c (processFile fs db fi).2) fi.path]
      else pub)
      hnd2.2
      (fun fj hfj => hfs fj (List.mem_cons_of_mem _ hfj)) hz2
    have hcnt : stepCounters c (processFile fs db fi).2 =
        { processed := c.processed + 1, newC := c.newC + 1, updatedC := c.updatedC,
          errC := c.errC } := by
      rw [hout]; rfl
    refine ⟨?_, ?_, ?_, ?_, ?_, ?_⟩
    · intro fj hfj
      rcases List.mem_cons.mp hfj with rfl | hfj
      · rw [i2 fj.path (fun g hg => hne g hg), hcount fj.path, if_pos rfl, h0]
      · exact i1 fj hfj
    · intro q hq
      rw [i2 q (fun g hg => hq g (List.mem_cons_of_mem _ hg)), hcount q,
        if_neg (hq fi (List.mem_cons_self _ _))]
      omega
    · rw [i3, hcnt]; simp; omega
    · rw [i4, hcnt]; simp; omega
    · rw [i5, hcnt]
    · rw [i6, hcnt]

/-- Re-scan accounting: over openable files whose paths are already stored,
the loop leaves every per-path row count unchanged and counts every file as
updated, none as new and none as an error. -/
theorem loop_existing (fs : List FsEntry) (total : Nat) :
    ∀ (files : List FileInfo) (db : DB) (c : Counters) (pr : ScanProgress)
      (pub : List ScanProgress),
      (∀ fi ∈ files, (findFile fs fi.path).isSome = true) →
      (∀ fi ∈ files, countPath db fi.path ≠ 0) →
      (∀ q, countPath (processFilesLoop (processFile fs) total none db c pr pub files).db q
        = countPath db q) ∧
      (processFilesLoop (processFile fs) total none db c pr pub files).counters.processed
        = c.processed + files.length ∧
      (processFilesLoop (processFile fs) total none db c pr pub files).counters.newC
        = c.newC ∧
      (processFilesLoop (processFile fs) total none db c pr pub files).counters.updatedC
        = c.updatedC + files.length ∧
      (processFilesLoop (processFile fs) total none db c pr pub files).counters.errC
        = c.errC := by
  intro files
  induction files with
  | nil =>
    intro db c pr pub hfs hnz
    exact ⟨fun q => rfl, by simp [loop_nil], rfl, by simp [loop_nil], rfl⟩
  | cons fi rest ih =>
    intro db c pr pub hfs hnz
    obtain ⟨m, hE⟩ := extract_ok_of_findFile (hfs fi (List.mem_cons_self _ _))
    have h1 : countPath db fi.path ≠ 0 := hnz fi (List.mem_cons_self _ _)
    obtain ⟨hout, hcount⟩ := processFile_ok_existing hE h1
    have hnz2 : ∀ fj ∈ rest, countPath (processFile fs db fi).1 fj.path ≠ 0 := by
      intro fj hfj
      rw [hcount fj.path]
      exact hnz fj (List.mem_cons_of_mem _ hfj)
    unfold processFilesLoop
    rw [if_neg (show ¬ ((none : Option Nat) = some 0) by simp)]
    simp only [decCancel_none]
    obtain ⟨i1, i2, i3, i4, i5⟩ := ih (processFile fs db fi).1
      (stepCounters c (processFile fs db fi).2)
      (if shouldPublish (stepCounters c (processFile fs db fi).2).processed total then
        publishProgress pr (stepCounters c (processFile fs db fi).2) fi.path
      else pr)
      (if shouldPublish (stepCounters c (processFile fs db fi).2).processed total then
        pub ++ [publishProgress pr (stepCounters c (processFile fs db fi).2) fi.path]
      else pub)
      (fun fj hfj => hfs fj (List.mem_cons_of_mem _ hfj)) hnz2
    have hcnt : stepCounters c (processFile fs db fi).2 =
        { processed := c.processed + 1, newC := c.newC, updatedC := c.updatedC + 1,
          errC := c.errC } := by
      rw [hout]; rfl
    refine ⟨?_, ?_, ?_, ?_, ?_⟩
    · intro q
      rw [i1 q, hcount q]
    · rw [i2, hcnt]; simp; omega
    · rw [i3, hcnt]
    · rw [i4, hcnt]; simp; omega
    · rw [i5, hcnt]

theorem loop_counters (run : DB → FileInfo → DB × FileOutcome) (total : Nat) :
    ∀ (files : List FileInfo) (cl : Option Nat) (db : DB) (c : Counters)
      (pr : ScanProgress) (pub : List ScanProgress),
      c.processed = c.newC + c.updatedC + c.errC →
      (∀ p ∈ pub, p.processedFiles = p.newTracks + p.updatedTracks + p.errorCount) →
      ((processFilesLoop run total cl db c pr pub files).counters.processed
        = (processFilesLoop run total cl db c pr pub files).counters.newC
          + (processFilesLoop run total cl db c pr pub files).counters.updatedC
          + (processFilesLoop run total cl db c pr pub files).counters.errC) ∧
      (∀ p ∈ (processFilesLoop run total cl db c pr pub files).published,
        p.processedFiles = p.newTracks + p.updatedTracks + p.errorCount) := by
  intro files
  induction files with
  | nil => intro cl db c pr pub hc hp; exact ⟨hc, hp⟩
  | cons fi rest ih =>
    intro cl db c pr pub hc hp
    have hc2 : (stepCounters c (run db fi).2).processed
        = (stepCounters c (run db fi).2).newC + (stepCounters c (run db fi).2).updatedC
          + (stepCounters c (run db fi).2).errC := by
      cases (run db fi).2 <;> simp [stepCounters] <;> omega
    unfold processFilesLoop
    by_cases hcl : cl = some 0
    · rw [if_pos hcl]; exact ⟨hc, hp⟩
    · rw [if_neg hcl]
      refine ih _ _ _ _ _ hc2 ?_
      split
      · intro p hpmem
        rcases List.mem_append.mp hpmem with hpmem | hpmem
        · exact hp p hpmem
        · have hpe : p = publishProgress pr (stepCounters c (run db fi).2) fi.path := by
            simpa using hpmem
          rw [hpe]
          simpa [publishProgress] using hc2
      · exact hp

/-! ### Discovery lemmas -/

@[simp] theorem classifyEntry_path (known : List (String × Nat)) (f : FsEntry) :
    (classifyEntry known f).path = f.path := by
  unfold classifyEntry
  cases lookupKnown known f.path <;> rfl

theorem mem_discoverFiles {known : List (String × Nat)} {fs : List FsEntry}
    {fi : FileInfo} :
    fi ∈ discoverFiles known fs ↔
      ∃ f, f ∈ fs ∧ isSupportedExt f.path = true ∧ classifyEntry known f = fi := by
  unfold discoverFiles
  simp [List.mem_map, List.mem_filter, and_assoc]

theorem discoverFiles_findFile (known : List (String × Nat)) (fs : List FsEntry) :
    ∀ fi ∈ discoverFiles known fs, (findFile fs fi.path).isSome = true := by
  intro fi hfi
  obtain ⟨f, hf, hsup, hcl⟩ := mem_discoverFiles.mp hfi
  have hpath : fi.path = f.path := by rw [← hcl]; simp
  rw [hpath]
  unfold findFile
  exact find?_isSome_of_pred _ fs f hf (by simp)

theorem discoverFiles_paths (known : List (String × Nat)) (fs : List FsEntry) :
    (discoverFiles known fs).map (fun fi => fi.path)
      = (fs.filter (fun f => isSupportedExt f.path)).map (fun f => f.path) := by
  unfold discoverFiles
  rw [List.map_map]
  apply List.map_congr_left
  intro a ha
  simp

theorem discoverFiles_nodup {known : List (String × Nat)} {fs : List FsEntry}
    (hnd : (fs.map (fun f => f.path)).Nodup) :
    ((discoverFiles known fs).map (fun fi => fi.path)).Nodup := by
  rw [discoverFiles_paths]
  exact List.Nodup.sublist (List.Sublist.map _ (List.filter_sublist fs)) hnd

theorem discoverFiles_length (known : List (String × Nat)) (fs : List FsEntry) :
    (discoverFiles known fs).length
      = (fs.filter (fun f => isSupportedExt f.path)).length := by
  unfold discoverFiles
  rw [List.length_map]

theorem scanCandidates_full (fs : List FsEntry) (db : DB)
    (known0 : List (String × Nat)) :
    scanCandidates fs db known0 false = discoverFiles known0 fs := by
  unfold scanCandidates
  simp

/-- Membership of a path among the full-scan candidates, as the `any`
predicate over the filesystem. -/
theorem any_iff_candidate (known : List (String × Nat)) (fs : List FsEntry)
    (q : String) :
    (fs.any (fun f => f.path = q ∧ isSupportedExt f.path) = true) ↔
      ∃ fi ∈ discoverFiles known fs, fi.path = q := by
  simp only [List.any_eq_true, mem_discoverFiles]
  constructor
  · rintro ⟨f, hf, hfq⟩
    have h1 : f.path = q ∧ isSupportedExt f.path = true := by simpa using hfq
    exact ⟨classifyEntry known f, ⟨f, hf, h1.2, rfl⟩, by simpa using h1.1⟩
  · rintro ⟨fi, ⟨f, hf, hsup, rfl⟩, hq⟩
    refine ⟨f, hf, ?_⟩
    have hfq : f.path = q := by simpa using hq
    simpa using (⟨hfq, hsup⟩ : f.path = q ∧ isSupportedExt f.path = true)

theorem cleanupDeletedFiles_nil (fs : List FsEntry) (db : DB) :
    cleanupDeletedFiles fs db [] = (db, 0) := by
  unfold cleanupDeletedFiles findDeletedFiles
  simp

/-! ### scanRun characterisations -/

/-- An uncancelled scan: discovery succeeds, the loop runs to completion,
and full scans run the deletion cleanup while incremental scans skip it. -/
theorem scanRun_none_eq (fs : List FsEntry) (db : DB) (known0 : List (String × Nat))
    (inc : Bool) :
    scanRun fs db known0 inc none =
      (if inc then
        { db := (scanLoopResult fs db known0 inc).db
          progress := { (scanLoopResult fs db known0 inc).progress with
            status := .completed }
          published := (scanLoopResult fs db known0 inc).published
            ++ [{ (scanLoopResult fs db known0 inc).progress with status := .completed }]
          known := db.tracks.map (fun t => (t.path, 0))
          ok := true }
      else
        { db := (cleanupDeletedFiles fs (scanLoopResult fs db known0 inc).db known0).1
          progress := { (scanLoopResult fs db known0 inc).progress with
            deletedTracks :=
              (cleanupDeletedFiles fs (scanLoopResult fs db known0 inc).db known0).2
            status := .completed }
          published := (scanLoopResult fs db known0 inc).published
            ++ [{ (scanLoopResult fs db known0 inc).progress with
              deletedTracks :=
                (cleanupDeletedFiles fs (scanLoopResult fs db known0 inc).db known0).2
              status := .completed }]
          known := known0
          ok := true }) := by
  cases inc <;>
    simp [scanRun, scanLoopResult, loop_none_no_cancel]

/-- A scan whose cancellation is observed at a worker-dispatch boundary:
the loop commits the first `k` candidates and the coordinator transitions to
`cancelled` without running the cleanup phase. -/
theorem scanRun_cancel_eq (fs : List FsEntry) (db : DB) (known0 : List (String × Nat))
    (inc : Bool) (n : Nat) (hd : ¬ n < fs.length)
    (hk : n - fs.length < (scanCandidates fs db known0 inc).length) :
    scanRun fs db known0 inc (some n) =
      { db := (scanCancelLoopResult fs db known0 inc (n - fs.length)).db
        progress := { (scanCancelLoopResult fs db known0 inc (n - fs.length)).progress with
          status := .cancelled }
        published := (scanCancelLoopResult fs db known0 inc (n - fs.length)).published
        known := if inc then db.tracks.map (fun t => (t.path, 0)) else known0
        ok := false } := by
  unfold scanRun scanCancelLoopResult
  dsimp only
  rw [if_neg (by simpa using hd)]
  simp only [Option.map_some']
  rw [loop_cancel_take (processFile fs) _ _ _ _ _ _ _ hk]
  simp

/-- What the worker-pool phase guarantees on every uncancelled scan: all
published snapshots satisfy the counter identity, the progress struct ends
holding the final counters, the processed count ends at the candidate
count, and status/total/deleted pass through. -/
theorem scanLoopResult_spec (fs : List FsEntry) (db : DB) (known0 : List (String × Nat))
    (inc : Bool) :
    (∀ p ∈ (scanLoopResult fs db known0 inc).published,
      p.processedFiles = p.newTracks + p.updatedTracks + p.errorCount) ∧
    (scanLoopResult fs db known0 inc).progress.totalFiles
      = (scanCandidates fs db known0 inc).length ∧
    (scanLoopResult fs db known0 inc).progress.deletedTracks = 0 ∧
    (scanLoopResult fs db known0 inc).progress.processedFiles
      = (scanLoopResult fs db known0 inc).counters.processed ∧
    (scanLoopResult fs db known0 inc).progress.newTracks
      = (scanLoopResult fs db known0 inc).counters.newC ∧
    (scanLoopResult fs db known0 inc).progress.updatedTracks
      = (scanLoopResult fs db known0 inc).counters.updatedC ∧
    (scanLoopResult fs db known0 inc).progress.errorCount
      = (scanLoopResult fs db known0 inc).counters.errC ∧
    (scanLoopResult fs db known0 inc).counters.processed
      = (scanCandidates fs db known0 inc).length ∧
    (scanLoopResult fs db known0 inc).counters.processed
      = (scanLoopResult fs db known0 inc).counters.newC
        + (scanLoopResult fs db known0 inc).counters.updatedC
        + (scanLoopResult fs db known0 inc).counters.errC := by
  obtain ⟨hC1, hC2⟩ := loop_counters (processFile fs)
    (scanCandidates fs db known0 inc).length (scanCandidates fs db known0 inc) none db {}
    { status := .processing, totalFiles := (scanCandidates fs db known0 inc).length }
    [{ status := .scanning },
     { status := .processing, totalFiles := (scanCandidates fs db known0 inc).length }]
    rfl
    (by intro p hp
        rcases List.mem_cons.mp hp with rfl | hp
        · rfl
        · rcases List.mem_cons.mp hp with rfl | hp
          · rfl
          · simp at hp)
  obtain ⟨hP1, hP2, hP3⟩ := loop_preserves (processFile fs)
    (scanCandidates fs db known0 inc).length (scanCandidates fs db known0 inc) none db {}
    { status := .processing, totalFiles := (scanCandidates fs db known0 inc).length }
    [{ status := .scanning },
     { status := .processing, totalFiles := (scanCandidates fs db known0 inc).length }]
  by_cases hfe : scanCandidates fs db known0 inc = []
  · unfold scanLoopResult
    rw [hfe, List.length_nil, loop_nil]
    refine ⟨?_, rfl, rfl, rfl, rfl, rfl, rfl, rfl, rfl⟩
    intro p hp
    rcases List.mem_cons.mp hp with rfl | hp
    · rfl
    · rcases List.mem_cons.mp hp with rfl | hp
      · rfl
      · simp at hp
  · obtain ⟨⟨f1, f2, f3, f4⟩, f5⟩ := loop_final_aux (processFile fs)
      (scanCandidates fs db known0 inc).length (scanCandidates fs db known0 inc) db {}
      { status := .processing, totalFiles := (scanCandidates fs db known0 inc).length }
      [{ status := .scanning },
       { status := .processing, totalFiles := (scanCandidates fs db known0 inc).length }]
      hfe (by simp)
    exact ⟨hC2, hP2, hP3, f1, f2, f3, f4, f5, hC1⟩

/-- A scan whose cancellation is observed during file discovery: the walk
returns the context error and the coordinator marks the scan `failed`. -/
theorem scanRun_discovery_cancel_eq (fs : List FsEntry) (db : DB)
    (known0 : List (String × Nat)) (inc : Bool) (n : Nat) (hd : n < fs.length) :
    scanRun fs db known0 inc (some n) =
      { db := db
        progress := { status := .failed }
        published := [{ status := .scanning }]
        known := if inc then db.tracks.map (fun t => (t.path, 0)) else known0
        ok := false } := by
  unfold scanRun
  simp [hd]

/-- `bucketStep` never touches `processedCount`. -/
theorem bucketStep_processedCount (s : ConcState) (o : FileOutcome) :
    (bucketStep s o).processedCount = s.processedCount := by
  cases o <;> rfl

/-- `bucketStep` never touches the progress struct. -/
theorem bucketStep_progress (s : ConcState) (o : FileOutcome) :
    (bucketStep s o).progress = s.progress := by
  cases o <;> rfl

/-- `bucketStep` never publishes. -/
theorem bucketStep_published (s : ConcState) (o : FileOutcome) :
    (bucketStep s o).published = s.published := by
  cases o <;> rfl

/-- `bucketStep` adds exactly one to the three buckets' sum. -/
theorem bucketStep_sum (s : ConcState) (o : FileOutcome) :
    (bucketStep s o).newCount + (bucketStep s o).updatedCount
        + (bucketStep s o).errorCount
      = s.newCount + s.updatedCount + s.errorCount + 1 := by
  cases o <;> simp [bucketStep] <;> omega

/-- A worker about to do its bucket add is not in the mid window. -/
theorem midFlag_toBucket (jobs : List (String × FileOutcome)) (lp : Nat) :
    midFlag ⟨jobs, .toBucket, lp⟩ = 0 := by
  cases jobs <;> rfl

/-- A worker about to publish is not in the mid window. -/
theorem midFlag_toPub (jobs : List (String × FileOutcome)) (lp : Nat) :
    midFlag ⟨jobs, .toPub, lp⟩ = 0 := by
  cases jobs <;> rfl

/-- `publishStep` reads but never writes the four counters. -/
theorem publishStep_counts (total : Nat) (s : ConcState) (lp : Nat)
    (path : String) :
    (publishStep total s lp path).processedCount = s.processedCount ∧
    (publishStep total s lp path).newCount = s.newCount ∧
    (publishStep total s lp path).updatedCount = s.updatedCount ∧
    (publishStep total s lp path).errorCount = s.errorCount := by
  unfold publishStep
  split <;> exact ⟨rfl, rfl, rfl, rfl⟩

/-- `publishStep` with the publish condition met overwrites the progress. -/
theorem publishStep_pos_progress (total : Nat) (s : ConcState) (lp : Nat)
    (path : String) (hp : lp % 10 = 0 ∨ lp = total) :
    (publishStep total s lp path).progress = pubSnapshot s lp path := by
  unfold publishStep
  rw [if_pos hp]

/-- `publishStep` with the publish condition met emits one snapshot. -/
theorem publishStep_pos_published (total : Nat) (s : ConcState) (lp : Nat)
    (path : String) (hp : lp % 10 = 0 ∨ lp = total) :
    (publishStep total s lp path).published
      = s.published ++ [pubSnapshot s lp path] := by
  unfold publishStep
  rw [if_pos hp]

/-- `publishStep` without the publish condition leaves the progress alone. -/
theorem publishStep_neg_progress (total : Nat) (s : ConcState) (lp : Nat)
    (path : String) (hp : ¬ (lp % 10 = 0 ∨ lp = total)) :
    (publishStep total s lp path).progress = s.progress := by
  unfold publishStep
  rw [if_neg hp]

/-- `publishStep` without the publish condition emits nothing. -/
theorem publishStep_neg_published (total : Nat) (s : ConcState) (lp : Nat)
    (path : String) (hp : ¬ (lp % 10 = 0 ∨ lp = total)) :
    (publishStep total s lp path).published = s.published := by
  unfold publishStep
  rw [if_neg hp]

/-- Additive form of how `List.set` changes a mapped sum. -/
theorem sum_map_set {α : Type} (f : α → Nat) :
    ∀ (l : List α) (i : Nat) (w w' : α), l[i]? = some w →
      ((l.set i w').map f).sum + f w = (l.map f).sum + f w' := by
  intro l
  induction l with
  | nil => intro i w w' h; simp at h
  | cons a t ih =>
    intro i w w' h
    cases i with
    | zero =>
      simp only [List.getElem?_cons_zero, Option.some.injEq] at h
      subst h
      simp only [List.set_cons_zero, List.map_cons, List.sum_cons]
      omega
    | succ j =>
      simp only [List.getElem?_cons_succ] at h
      have := ih j w w' h
      simp only [List.set_cons_succ, List.map_cons, List.sum_cons]
      omega

/-- In a pool of at most one worker, an indexed worker is the whole pool. -/
theorem workers_singleton {α : Type} {l : List α} {i : Nat} {w : α}
    (h1 : l.length ≤ 1) (h2 : l[i]? = some w) : l = [w] ∧ i = 0 := by
  cases l with
  | nil => simp at h2
  | cons a t =>
    cases t with
    | nil =>
      cases i with
      | zero =>
        simp at h2
        subst h2
        exact ⟨rfl, rfl⟩
      | succ j => simp at h2
    | cons b t2 =>
      simp only [List.length_cons] at h1
      omega

/-- One scheduler step never changes the pool's size. -/
theorem concStep_workers_length (total : Nat) (s : ConcState) (i : Nat) :
    (concStep total s i).workers.length = s.workers.length := by
  unfold concStep
  cases hw : s.workers[i]? with
  | none => rfl
  | some w =>
    obtain ⟨jobs, phase, lp⟩ := w
    cases jobs with
    | nil => rfl
    | cons job rest =>
      cases phase <;> simp [List.length_set]

/-- A run never changes the pool's size. -/
theorem concRun_workers_length (total : Nat) :
    ∀ (sched : List Nat) (s : ConcState),
      (concRun total s sched).workers.length = s.workers.length := by
  intro sched
  induction sched with
  | nil => intro s; rfl
  | cons i rest ih =>
    intro s
    have h1 : concRun total s (i :: rest)
        = concRun total (concStep total s i) rest := rfl
    rw [h1, ih, concStep_workers_length]

/-- Each scheduler step preserves the pool invariant. -/
theorem concStep_inv (total : Nat) (s : ConcState) (i : Nat) (h : concInv s) :
    concInv (concStep total s i) := by
  unfold concInv at h ⊢
  obtain ⟨hid, hlp, hpubs, hprog, hone⟩ := h
  simp only [midCount] at hid
  unfold concStep
  cases hw : s.workers[i]? with
  | none => exact ⟨by simpa [midCount] using hid, hlp, hpubs, hprog, hone⟩
  | some w =>
    obtain ⟨jobs, phase, lp⟩ := w
    cases jobs with
    | nil => exact ⟨by simpa [midCount] using hid, hlp, hpubs, hprog, hone⟩
    | cons job rest =>
      have hwmem : (⟨job :: rest, phase, lp⟩ : Worker) ∈ s.workers :=
        List.getElem?_mem hw
      cases phase with
      | toBucket =>
        have hs := sum_map_set midFlag s.workers i ⟨job :: rest, .toBucket, lp⟩
          ⟨job :: rest, .toProc, lp⟩ hw
        rw [midFlag_toBucket,
          show midFlag ⟨job :: rest, WPhase.toProc, lp⟩ = 1 from rfl] at hs
        refine ⟨?_, ?_, ?_, ?_, ?_⟩
        · have h1 := bucketStep_sum s job.2
          have h2 := bucketStep_processedCount s job.2
          simp only [midCount]
          omega
        · intro x hx
          rw [bucketStep_processedCount]
          rcases List.mem_or_eq_of_mem_set hx with hx | rfl
          · exact hlp x hx
          · exact hlp ⟨job :: rest, WPhase.toBucket, lp⟩ hwmem
        · rw [bucketStep_published]
          exact hpubs
        · rw [bucketStep_progress]
          exact hprog
        · intro hlen
          simp only [List.length_set] at hlen
          obtain ⟨h1, h2, h3⟩ := hone hlen
          refine ⟨?_, ?_, ?_⟩
          · intro x hx hxp
            rw [bucketStep_processedCount]
            rcases List.mem_or_eq_of_mem_set hx with hx | rfl
            · exact h1 x hx hxp
            · simp at hxp
          · rw [bucketStep_published]
            exact h2
          · rw [bucketStep_progress]
            exact h3
      | toProc =>
        have hs := sum_map_set midFlag s.workers i ⟨job :: rest, .toProc, lp⟩
          ⟨job :: rest, .toPub, s.processedCount + 1⟩ hw
        rw [midFlag_toPub,
          show midFlag ⟨job :: rest, WPhase.toProc, lp⟩ = 1 from rfl] at hs
        refine ⟨?_, ?_, ?_, ?_, ?_⟩
        · simp only [midCount]
          omega
        · intro x hx
          rcases List.mem_or_eq_of_mem_set hx with hx | rfl
          · exact le_trans (hlp x hx) (Nat.le_succ _)
          · exact le_refl _
        · exact hpubs
        · exact hprog
        · intro hlen
          simp only [List.length_set] at hlen
          obtain ⟨h1, h2, h3⟩ := hone hlen
          obtain ⟨hl, hi⟩ := workers_singleton hlen hw
          refine ⟨?_, h2, h3⟩
          intro x hx hxp
          rw [hi, hl] at hx
          simp at hx
          subst hx
          rfl
      | toPub =>
        have hs := sum_map_set midFlag s.workers i ⟨job :: rest, .toPub, lp⟩
          ⟨rest, .toBucket, lp⟩ hw
        rw [midFlag_toPub, midFlag_toBucket] at hs
        obtain ⟨c1, c2, c3, c4⟩ := publishStep_counts total s lp job.1
        refine ⟨?_, ?_, ?_, ?_, ?_⟩
        · simp only [midCount, c1, c2, c3, c4]
          omega
        · intro x hx
          rw [c1]
          rcases List.mem_or_eq_of_mem_set hx with hx | rfl
          · exact hlp x hx
          · exact hlp ⟨job :: rest, WPhase.toPub, lp⟩ hwmem
        · intro p hpm
          by_cases hcond : lp % 10 = 0 ∨ lp = total
          · rw [publishStep_pos_published total s lp job.1 hcond] at hpm
            rcases List.mem_append.mp hpm with hpm | hpm
            · exact hpubs p hpm
            · have hpe : p = pubSnapshot s lp job.1 := by simpa using hpm
              subst hpe
              have hle : lp ≤ s.processedCount :=
                hlp ⟨job :: rest, WPhase.toPub, lp⟩ hwmem
              show lp ≤ s.newCount + s.updatedCount + s.errorCount
              omega
          · rw [publishStep_neg_published total s lp job.1 hcond] at hpm
            exact hpubs p hpm
        · by_cases hcond : lp % 10 = 0 ∨ lp = total
          · rw [publishStep_pos_progress total s lp job.1 hcond]
            have hle : lp ≤ s.processedCount :=
              hlp ⟨job :: rest, WPhase.toPub, lp⟩ hwmem
            show lp ≤ s.newCount + s.updatedCount + s.errorCount
            omega
          · rw [publishStep_neg_progress total s lp job.1 hcond]
            exact hprog
        · intro hlen
          simp only [List.length_set] at hlen
          obtain ⟨h1, h2, h3⟩ := hone hlen
          obtain ⟨hl, hi⟩ := workers_singleton hlen hw
          have hlpP : lp = s.processedCount :=
            h1 ⟨job :: rest, WPhase.toPub, lp⟩ hwmem rfl
          have hM : (s.workers.map midFlag).sum = 0 := by
            rw [hl]
            simp [midFlag_toPub]
          refine ⟨?_, ?_, ?_⟩
          · intro x hx hxp
            rw [c1]
            rw [hi, hl] at hx
            simp at hx
            subst hx
            simp at hxp
          · intro p hpm
            by_cases hcond : lp % 10 = 0 ∨ lp = total
            · rw [publishStep_pos_published total s lp job.1 hcond] at hpm
              rcases List.mem_append.mp hpm with hpm | hpm
              · exact h2 p hpm
              · have hpe : p = pubSnapshot s lp job.1 := by simpa using hpm
                subst hpe
                show lp = s.newCount + s.updatedCount + s.errorCount
                omega
            · rw [publishStep_neg_published total s lp job.1 hcond] at hpm
              exact h2 p hpm
          · by_cases hcond : lp % 10 = 0 ∨ lp = total
            · rw [publishStep_pos_progress total s lp job.1 hcond]
              show lp = s.newCount + s.updatedCount + s.errorCount
              omega
            · rw [publishStep_neg_progress total s lp job.1 hcond]
              exact h3

/-- The invariant holds when the workers start. -/
theorem mkConcState_inv (total : Nat)
    (assignments : List (List (String × FileOutcome))) :
    concInv (mkConcState total assignments) := by
  unfold concInv
  have hz : ∀ (l : List (List (String × FileOutcome))),
      ((l.map (fun jobs => (⟨jobs, .toBucket, 0⟩ : Worker))).map midFlag).sum
        = 0 := by
    intro l
    induction l with
    | nil => rfl
    | cons a t ih =>
      simp only [List.map_cons, List.sum_cons, midFlag_toBucket, Nat.zero_add]
      exact ih
  refine ⟨?_, ?_, ?_, ?_, ?_⟩
  · simp only [midCount, mkConcState]
    rw [hz]
  · intro x hx
    simp [mkConcState] at hx
    obtain ⟨jobs, hj, rfl⟩ := hx
    exact Nat.le_refl 0
  · intro p hp
    simp [mkConcState] at hp
  · exact Nat.le_refl 0
  · intro _
    refine ⟨?_, ?_, ?_⟩
    · intro x hx hxp
      simp [mkConcState] at hx
      obtain ⟨jobs, hj, rfl⟩ := hx
      simp at hxp
    · intro p hp
      simp [mkConcState] at hp
    · rfl

/-- The invariant holds after any interleaving. -/
theorem concRun_inv (total : Nat) :
    ∀ (sched : List Nat) (s : ConcState),
      concInv s → concInv (concRun total s sched) := by
  intro sched
  induction sched with
  | nil => intro s h; exact h
  | cons i rest ih =>
    intro s h
    exact ih (concStep total s i) (concStep_inv total s i h)

/-- C10 counterexample: with two workers over eleven files, the worker that
reaches `processed = 10` is delayed between its `atomic.AddInt64` and its
publish while the other worker finishes the eleventh file and publishes; the
delayed publish then writes `ProcessedFiles = 10` next to freshly loaded
bucket counters summing to 11, so a published snapshot violates
`ProcessedFiles = NewTracks + UpdatedTracks + ErrorCount`, and the fully
drained run ends with `ProcessedFiles = 10 < 11 = TotalFiles`. -/
theorem progress_counter_race :
    ((concRun 11 (mkConcState 11 raceJobs) raceSched).published.all
      (fun p => p.processedFiles
        == p.newTracks + p.updatedTracks + p.errorCount)) = false ∧
    ((concRun 11 (mkConcState 11 raceJobs) raceSched).workers.all
      (fun w => w.jobs.isEmpty)) = true ∧
    (concRun 11 (mkConcState 11 raceJobs) raceSched).progress.processedFiles
      = 10 ∧
    (concRun 11 (mkConcState 11 raceJobs) raceSched).progress.totalFiles
      = 11 := by
  decide

/-- C10 (amended): under every interleaving of the `processFiles` worker
pool, every published ScanProgress satisfies `ProcessedFiles ≤ NewTracks +
UpdatedTracks + ErrorCount` — each bucket add happens before its processed
add, while a publish pairs fresh bucket loads with the publisher's possibly
stale local processed value — and the same bound holds of the final
progress; in a pool of at most one worker (a serialized execution) every
published snapshot and the final progress satisfy the exact identity
`ProcessedFiles = NewTracks + UpdatedTracks + ErrorCount`. -/
theorem progress_counter_race_freedom (total : Nat)
    (assignments : List (List (String × FileOutcome))) (sched : List Nat) :
    (∀ p ∈ (concRun total (mkConcState total assignments) sched).published,
      p.processedFiles ≤ p.newTracks + p.updatedTracks + p.errorCount) ∧
    (concRun total (mkConcState total assignments) sched).progress.processedFiles
      ≤ (concRun total (mkConcState total assignments) sched).progress.newTracks
        + (concRun total (mkConcState total assignments) sched).progress.updatedTracks
        + (concRun total (mkConcState total assignments) sched).progress.errorCount ∧
    (assignments.length ≤ 1 →
      (∀ p ∈ (concRun total (mkConcState total assignments) sched).published,
        p.processedFiles = p.newTracks + p.updatedTracks + p.errorCount) ∧
      (concRun total (mkConcState total assignments) sched).progress.processedFiles
        = (concRun total (mkConcState total assignments) sched).progress.newTracks
          + (concRun total (mkConcState total assignments) sched).progress.updatedTracks
          + (concRun total (mkConcState total assignments) sched).progress.errorCount) := by
  have h := concRun_inv total sched (mkConcState total assignments)
    (mkConcState_inv total assignments)
  unfold concInv at h
  obtain ⟨-, -, hpubs, hprog, hone⟩ := h
  refine ⟨hpubs, hprog, fun hlen => ?_⟩
  have hlen' : (concRun total (mkConcState total assignments) sched).workers.length
      ≤ 1 := by
    rw [concRun_workers_length]
    simpa [mkConcState] using hlen
  obtain ⟨-, h2, h3⟩ := hone hlen'
  exact ⟨h2, h3⟩

theorem progress_counter_race_freedom_witness :
    (∀ p ∈ (concRun 1
        (mkConcState 1 [[("/m/a.mp3", FileOutcome.newTrack)]])
        [0, 0, 0]).published,
      p.processedFiles ≤ p.newTracks + p.updatedTracks + p.errorCount) ∧
    (concRun 1 (mkConcState 1 [[("/m/a.mp3", FileOutcome.newTrack)]])
        [0, 0, 0]).progress.processedFiles
      ≤ (concRun 1 (mkConcState 1 [[("/m/a.mp3", FileOutcome.newTrack)]])
          [0, 0, 0]).progress.newTracks
        + (concRun 1 (mkConcState 1 [[("/m/a.mp3", FileOutcome.newTrack)]])
            [0, 0, 0]).progress.updatedTracks
        + (concRun 1 (mkConcState 1 [[("/m/a.mp3", FileOutcome.newTrack)]])
            [0, 0, 0]).progress.errorCount ∧
    (([[("/m/a.mp3", FileOutcome.newTrack)]] :
        List (List (String × FileOutcome))).length ≤ 1 →
      (∀ p ∈ (concRun 1
          (mkConcState 1 [[("/m/a.mp3", FileOutcome.newTrack)]])
          [0, 0, 0]).published,
        p.processedFiles = p.newTracks + p.updatedTracks + p.errorCount) ∧
      (concRun 1 (mkConcState 1 [[("/m/a.mp3", FileOutcome.newTrack)]])
          [0, 0, 0]).progress.processedFiles
        = (concRun 1 (mkConcState 1 [[("/m/a.mp3", FileOutcome.newTrack)]])
            [0, 0, 0]).progress.newTracks
          + (concRun 1 (mkConcState 1 [[("/m/a.mp3", FileOutcome.newTrack)]])
              [0, 0, 0]).progress.updatedTracks
          + (concRun 1 (mkConcState 1 [[("/m/a.mp3", FileOutcome.newTrack)]])
              [0, 0, 0]).progress.errorCount) :=
  progress_counter_race_freedom 1 [[("/m/a.mp3", FileOutcome.newTrack)]] [0, 0, 0]

/-- C1 counterexample: after a first full scan of one unchanged mp3 file, a
second full scan reports the file as an updated track (`UpdatedTracks = 1`),
not zero, because every re-seen existing path is re-upserted and tallied as
updated. -/
theorem rescan_counters_not_zero :
    (scanRun [⟨"/m/a.mp3", 100, 7, .unreadableTags⟩]
        (scanRun [⟨"/m/a.mp3", 100, 7, .unreadableTags⟩] {} [] false none).db
        [] false none).progress.newTracks = 0 ∧
    (scanRun [⟨"/m/a.mp3", 100, 7, .unreadableTags⟩]
        (scanRun [⟨"/m/a.mp3", 100, 7, .unreadableTags⟩] {} [] false none).db
        [] false none).progress.updatedTracks = 1 := by
  exact ⟨rfl, rfl⟩

/-- Openability of every full-scan candidate. -/
theorem scanCandidates_findFile (fs : List FsEntry) (db : DB)
    (known0 : List (String × Nat)) (inc : Bool) :
    ∀ fi ∈ scanCandidates fs db known0 inc, (findFile fs fi.path).isSome = true := by
  intro fi hfi
  unfold scanCandidates at hfi
  cases inc
  · simp only [if_neg] at hfi
    exact discoverFiles_findFile known0 fs fi (by simpa using hfi)
  · simp only [if_pos] at hfi
    have hfi2 : fi ∈ discoverFiles (db.tracks.map (fun t => (t.path, 0))) fs ∧
        (fi.isNew = true ∨ fi.isModified = true) := by simpa using hfi
    exact discoverFiles_findFile _ fs fi hfi2.1

/-- C1 (amended): on a tree of distinct file paths, a first full scan
creates exactly one Track row per distinct supported-audio file path; a
second full scan over the unchanged tree reports zero new tracks but counts
every supported file as an updated track (`UpdatedTracks` equals the number
of supported files), leaving the row counts unchanged. -/
theorem full_scan_unique_then_rescan_counts_updates (fs : List FsEntry)
    (hnd : (fs.map (fun f => f.path)).Nodup) :
    (∀ q, countPath (scanRun fs {} [] false none).db q
      = if fs.any (fun f => f.path = q ∧ isSupportedExt f.path) = true then 1 else 0) ∧
    (scanRun fs (scanRun fs {} [] false none).db [] false none).progress.newTracks = 0 ∧
    (scanRun fs (scanRun fs {} [] false none).db [] false none).progress.updatedTracks
      = (fs.filter (fun f => isSupportedExt f.path)).length ∧
    (∀ q, countPath (scanRun fs (scanRun fs {} [] false none).db [] false none).db q
      = countPath (scanRun fs {} [] false none).db q) := by
  have hfull : ∀ db : DB, scanCandidates fs db [] false = discoverFiles [] fs :=
    fun db => scanCandidates_full fs db []
  -- the first scan's database is the loop database (cleanup is a no-op on an
  -- empty known-file snapshot)
  have hdb1 : (scanRun fs {} [] false none).db = (scanLoopResult fs {} [] false).db := by
    rw [scanRun_none_eq]
    rw [if_neg (by simp), cleanupDeletedFiles_nil]
  obtain ⟨l1, l2, l3, l4, l5, l6⟩ := loop_fresh fs (scanCandidates fs {} [] false).length
    (scanCandidates fs {} [] false) {} {}
    { status := .processing, totalFiles := (scanCandidates fs {} [] false).length }
    [{ status := .scanning },
     { status := .processing, totalFiles := (scanCandidates fs {} [] false).length }]
    (by rw [hfull]; exact discoverFiles_nodup hnd)
    (scanCandidates_findFile fs {} [] false)
    (fun fi _ => rfl)
  have hcount1 : ∀ q, countPath (scanRun fs {} [] false none).db q
      = if fs.any (fun f => f.path = q ∧ isSupportedExt f.path) = true then 1 else 0 := by
    intro q
    rw [hdb1]
    unfold scanLoopResult
    by_cases hq : fs.any (fun f => f.path = q ∧ isSupportedExt f.path) = true
    · rw [if_pos hq]
      obtain ⟨fi, hfi, hfiq⟩ := (any_iff_candidate [] fs q).mp hq
      have hfi2 : fi ∈ scanCandidates fs {} [] false := by rw [hfull]; exact hfi
      have := l1 fi hfi2
      rw [← hfiq]
      exact this
    · rw [if_neg hq]
      have hne : ∀ fi ∈ scanCandidates fs {} [] false, fi.path ≠ q := by
        intro fi hfi hcontra
        exact hq ((any_iff_candidate [] fs q).mpr
          ⟨fi, by rw [hfull] at hfi; exact hfi, hcontra⟩)
      rw [l2 q hne]
      rfl
  have hnz : ∀ fi ∈ scanCandidates fs (scanRun fs {} [] false none).db [] false,
      countPath (scanRun fs {} [] false none).db fi.path ≠ 0 := by
    intro fi hfi
    rw [hcount1 fi.path]
    rw [hfull ((scanRun fs {} [] false none).db)] at hfi
    rw [if_pos ((any_iff_candidate [] fs fi.path).mpr ⟨fi, hfi, rfl⟩)]
    exact one_ne_zero
  obtain ⟨e1, e2, e3, e4, e5⟩ := loop_existing fs
    (scanCandidates fs (scanRun fs {} [] false none).db [] false).length
    (scanCandidates fs (scanRun fs {} [] false none).db [] false)
    (scanRun fs {} [] false none).db {}
    { status := .processing,
      totalFiles := (scanCandidates fs (scanRun fs {} [] false none).db [] false).length }
    [{ status := .scanning },
     { status := .processing,
       totalFiles := (scanCandidates fs (scanRun fs {} [] false none).db [] false).length }]
    (scanCandidates_findFile fs (scanRun fs {} [] false none).db [] false) hnz
  obtain ⟨s1, s2, s3, s4, s5, s6, s7, s8, s9⟩ :=
    scanLoopResult_spec fs (scanRun fs {} [] false none).db [] false
  have hdb2 : (scanRun fs (scanRun fs {} [] false none).db [] false none).db
      = (scanLoopResult fs (scanRun fs {} [] false none).db [] false).db := by
    rw [scanRun_none_eq]
    rw [if_neg (by simp), cleanupDeletedFiles_nil]
  have hpr2 : (scanRun fs (scanRun fs {} [] false none).db [] false none).progress.newTracks
      = (scanLoopResult fs (scanRun fs {} [] false none).db [] false).progress.newTracks ∧
      (scanRun fs (scanRun fs {} [] false none).db [] false none).progress.updatedTracks
      = (scanLoopResult fs (scanRun fs {} [] false none).db [] false).progress.updatedTracks := by
    rw [scanRun_none_eq]
    rw [if_neg (by simp)]
    exact ⟨rfl, rfl⟩
  refine ⟨hcount1, ?_, ?_, ?_⟩
  · rw [hpr2.1, s5]
    have : (scanLoopResult fs (scanRun fs {} [] false none).db [] false).counters.newC
        = (0 : Nat) := by
      unfold scanLoopResult
      rw [e3]
    exact this
  · rw [hpr2.2, s6]
    have : (scanLoopResult fs (scanRun fs {} [] false none).db [] false).counters.updatedC
        = (scanCandidates fs (scanRun fs {} [] false none).db [] false).length := by
      unfold scanLoopResult
      rw [e4]
      simp
    rw [this, hfull, discoverFiles_length]
  · intro q
    rw [hdb2]
    have : countPath (scanLoopResult fs (scanRun fs {} [] false none).db [] false).db q
        = countPath (scanRun fs {} [] false none).db q := by
      unfold scanLoopResult
      exact e1 q
    exact this

theorem full_scan_rescan_witness :
    ((([⟨"/m/a.mp3", 100, 7, .unreadableTags⟩] : List FsEntry).map
        (fun f => f.path)).Nodup) ∧
    ((∀ q, countPath (scanRun [⟨"/m/a.mp3", 100, 7, .unreadableTags⟩] {} [] false none).db q
      = if ([⟨"/m/a.mp3", 100, 7, .unreadableTags⟩] : List FsEntry).any
          (fun f => f.path = q ∧ isSupportedExt f.path) = true then 1 else 0) ∧
    (scanRun [⟨"/m/a.mp3", 100, 7, .unreadableTags⟩]
        (scanRun [⟨"/m/a.mp3", 100, 7, .unreadableTags⟩] {} [] false none).db
        [] false none).progress.newTracks = 0 ∧
    (scanRun [⟨"/m/a.mp3", 100, 7, .unreadableTags⟩]
        (scanRun [⟨"/m/a.mp3", 100, 7, .unreadableTags⟩] {} [] false none).db
        [] false none).progress.updatedTracks
      = (([⟨"/m/a.mp3", 100, 7, .unreadableTags⟩] : List FsEntry).filter
          (fun f => isSupportedExt f.path)).length ∧
    (∀ q, countPath (scanRun [⟨"/m/a.mp3", 100, 7, .unreadableTags⟩]
        (scanRun [⟨"/m/a.mp3", 100, 7, .unreadableTags⟩] {} [] false none).db
        [] false none).db q
      = countPath (scanRun [⟨"/m/a.mp3", 100, 7, .unreadableTags⟩] {} [] false none).db q)) :=
  ⟨by decide,
   full_scan_unique_then_rescan_counts_updates
     [⟨"/m/a.mp3", 100, 7, .unreadableTags⟩] (by decide)⟩

/-- C2 counterexample: a scan cancelled during file discovery (checkpoint 0,
before the one file is walked) terminates with status `failed`, not
`cancelled`, because the `scan` coordinator maps a discovery error straight
to `failed` without checking for `context.Canceled`. -/
theorem cancel_during_discovery_fails :
    (scanRun [⟨"/m/a.mp3", 100, 7, .unreadableTags⟩] {} [] false
        (some 0)).progress.status = ScanStatus.failed ∧
    ScanStatus.failed ≠ ScanStatus.cancelled :=
  ⟨rfl, by decide⟩

/-- C2 (amended): a scan (full or incremental) whose cancellation is
observed before completion terminates with no deletions performed and every
upsert committed before the cancellation point still committed; its status
is `cancelled` when the cancellation is observed at a worker-dispatch
boundary, but `failed` when it is observed during file discovery. -/
theorem scan_cancel_semantics (fs : List FsEntry) (db : DB)
    (known0 : List (String × Nat)) (inc : Bool) (n : Nat)
    (hn : n < fs.length + (scanCandidates fs db known0 inc).length) :
    (scanRun fs db known0 inc (some n)).progress.status
      = (if n < fs.length then ScanStatus.failed else ScanStatus.cancelled) ∧
    (scanRun fs db known0 inc (some n)).ok = false ∧
    (scanRun fs db known0 inc (some n)).progress.deletedTracks = 0 ∧
    (∀ q, countPath db q ≤ countPath (scanRun fs db known0 inc (some n)).db q) ∧
    List.Sublist db.albums (scanRun fs db known0 inc (some n)).db.albums ∧
    List.Sublist db.artists (scanRun fs db known0 inc (some n)).db.artists ∧
    (∀ fi ∈ (scanCandidates fs db known0 inc).take (n - fs.length),
      countPath (scanRun fs db known0 inc (some n)).db fi.path ≠ 0) := by
  by_cases hd : n < fs.length
  · rw [scanRun_discovery_cancel_eq fs db known0 inc n hd]
    refine ⟨by rw [if_pos hd], rfl, rfl, fun q => le_rfl,
      List.Sublist.refl _, List.Sublist.refl _, ?_⟩
    intro fi hfi
    rw [Nat.sub_eq_zero_of_le (le_of_lt hd), List.take_zero] at hfi
    simp at hfi
  · have hk : n - fs.length < (scanCandidates fs db known0 inc).length := by omega
    rw [scanRun_cancel_eq fs db known0 inc n hd hk]
    have htake : ∀ fi ∈ (scanCandidates fs db known0 inc).take (n - fs.length),
        (findFile fs fi.path).isSome = true := fun fi hfi =>
      scanCandidates_findFile fs db known0 inc fi (List.take_subset _ _ hfi)
    obtain ⟨m1, m2, m3⟩ := loop_mono fs (scanCandidates fs db known0 inc).length
      ((scanCandidates fs db known0 inc).take (n - fs.length)) none db {}
      { status := .processing, totalFiles := (scanCandidates fs db known0 inc).length }
      [{ status := .scanning },
       { status := .processing, totalFiles := (scanCandidates fs db known0 inc).length }]
    obtain ⟨p1, p2, p3⟩ := loop_preserves (processFile fs)
      (scanCandidates fs db known0 inc).length
      ((scanCandidates fs db known0 inc).take (n - fs.length)) none db {}
      { status := .processing, totalFiles := (scanCandidates fs db known0 inc).length }
      [{ status := .scanning },
       { status := .processing, totalFiles := (scanCandidates fs db known0 inc).length }]
    have hpres := loop_present fs (scanCandidates fs db known0 inc).length
      ((scanCandidates fs db known0 inc).take (n - fs.length)) db {}
      { status := .processing, totalFiles := (scanCandidates fs db known0 inc).length }
      [{ status := .scanning },
       { status := .processing, totalFiles := (scanCandidates fs db known0 inc).length }]
      htake
    refine ⟨by rw [if_neg hd], rfl, ?_, ?_, ?_, ?_, ?_⟩
    · show (scanCancelLoopResult fs db known0 inc (n - fs.length)).progress.deletedTracks = 0
      unfold scanCancelLoopResult
      rw [p3]
    · intro q
      show countPath db q
        ≤ countPath (scanCancelLoopResult fs db known0 inc (n - fs.length)).db q
      unfold scanCancelLoopResult
      exact m1 q
    · show List.Sublist db.albums
        (scanCancelLoopResult fs db known0 inc (n - fs.length)).db.albums
      unfold scanCancelLoopResult
      exact m2
    · show List.Sublist db.artists
        (scanCancelLoopResult fs db known0 inc (n - fs.length)).db.artists
      unfold scanCancelLoopResult
      exact m3
    · intro fi hfi
      show countPath (scanCancelLoopResult fs db known0 inc (n - fs.length)).db fi.path ≠ 0
      unfold scanCancelLoopResult
      exact hpres fi hfi

theorem scan_cancel_semantics_witness :
    ((1 : Nat) < ([⟨"/m/a.mp3", 100, 7, .unreadableTags⟩] : List FsEntry).length
      + (scanCandidates [⟨"/m/a.mp3", 100, 7, .unreadableTags⟩] {} [] false).length) ∧
    ((scanRun [⟨"/m/a.mp3", 100, 7, .unreadableTags⟩] {} [] false (some 1)).progress.status
      = (if 1 < ([⟨"/m/a.mp3", 100, 7, .unreadableTags⟩] : List FsEntry).length
          then ScanStatus.failed else ScanStatus.cancelled) ∧
    (scanRun [⟨"/m/a.mp3", 100, 7, .unreadableTags⟩] {} [] false (some 1)).ok = false ∧
    (scanRun [⟨"/m/a.mp3", 100, 7, .unreadableTags⟩] {} [] false
        (some 1)).progress.deletedTracks = 0 ∧
    (∀ q, countPath {} q ≤
      countPath (scanRun [⟨"/m/a.mp3", 100, 7, .unreadableTags⟩] {} [] false (some 1)).db q) ∧
    List.Sublist (DB.albums {})
      (scanRun [⟨"/m/a.mp3", 100, 7, .unreadableTags⟩] {} [] false (some 1)).db.albums ∧
    List.Sublist (DB.artists {})
      (scanRun [⟨"/m/a.mp3", 100, 7, .unreadableTags⟩] {} [] false (some 1)).db.artists ∧
    (∀ fi ∈ (scanCandidates [⟨"/m/a.mp3", 100, 7, .unreadableTags⟩] {} [] false).take
        (1 - ([⟨"/m/a.mp3", 100, 7, .unreadableTags⟩] : List FsEntry).length),
      countPath (scanRun [⟨"/m/a.mp3", 100, 7, .unreadableTags⟩] {} [] false (some 1)).db
        fi.path ≠ 0)) :=
  ⟨by decide,
   scan_cancel_semantics [⟨"/m/a.mp3", 100, 7, .unreadableTags⟩] {} [] false 1 (by decide)⟩

end Harmony
